import Mathlib

/-!
Verification development for the StyleSync reconciliation engine.

The definitions below are a shallow embedding of the Python sources:
`src/sync.py` (expected-state builder, output reconciler), `src/storage/local.py`
(local storage provider), `src/main.py` (task executor), `src/function_app.py`
(serverless variant of the executor), `src/reporting.py` (run context) and
`src/clients/stability.py` (generation backend B).  Python dictionaries are
modelled as insertion-ordered association lists with replace-or-append
assignment, bytes as `String`, floats as `ℚ`, and raised exceptions as
`Except String`.  Python string primitives are modelled over the character
list of a `String` so that every definition evaluates by kernel reduction.
-/

namespace StyleSync

/-! ### Python string primitives -/

/-- Python `s.lower()` (sources only use ASCII names). -/
def pyLower (s : String) : String := ⟨s.data.map Char.toLower⟩

/-- Python `s.endswith(suf)`. -/
def pyEndsWith (s suf : String) : Bool := suf.data.isSuffixOf s.data

/-- Python `s.startswith(p)`. -/
def pyStartsWith (s p : String) : Bool := p.data.isPrefixOf s.data

/-- Python `s[n:]` (drop the first `n` characters). -/
def pyDrop (s : String) (n : Nat) : String := ⟨s.data.drop n⟩

/-- Python `len(s)`. -/
def pyLen (s : String) : Nat := s.data.length

/-- Python `s.lstrip('/')`. -/
def pyLstripSlash (s : String) : String := ⟨s.data.dropWhile (fun c => c = '/')⟩

/-- Python `s.rstrip('/')`. -/
def pyRstripSlash (s : String) : String := ⟨(s.data.reverse.dropWhile (fun c => c = '/')).reverse⟩

/-- Python `s.replace(' ', '_')`: with a single-character pattern this is a
character-by-character map. -/
def pyReplaceSpace (s : String) : String := ⟨s.data.map (fun c => if c = ' ' then '_' else c)⟩

/-! ### Data model -/

/-- A file listing entry, after `src/storage/base.py` `FileItem`. -/
structure FileItem where
  name : String
  is_dir : Bool
  size : Option Int
  path : String
deriving DecidableEq, Repr

/-- A style configuration entry, after the `{name, prompt_text, strength, index}`
dictionaries of the configuration; `name` is optional because the source reads it
with `style.get('name', ...)`. -/
structure Style where
  name : Option String
  prompt_text : String
  strength : ℚ
  index : Int
deriving DecidableEq, Repr

/-- One value of the expected-state dictionary built by `map_expected_state`. -/
structure ExpectedEntry where
  source_item : FileItem
  style : Option Style
  output_path : String
  is_original : Bool
deriving DecidableEq, Repr

/-! ### Python dictionaries as insertion-ordered association lists -/

section Dict

variable {α : Type}

/-- Python dictionary assignment `m[k] = v`: replace the value in place when the
key is present, append otherwise (insertion order is preserved). -/
def dinsert (m : List (String × α)) (k : String) (v : α) : List (String × α) :=
  if m.any (fun kv => kv.1 = k) then
    m.map (fun kv => if kv.1 = k then (k, v) else kv)
  else
    m ++ [(k, v)]

/-- Python dictionary lookup `m[k]`, as an option. -/
def dlookup (m : List (String × α)) (k : String) : Option α :=
  (m.find? (fun kv => kv.1 = k)).map (fun kv => kv.2)

/-- Python `k in m` membership test on a dictionary. -/
def containsKey (m : List (String × α)) (k : String) : Bool :=
  m.any (fun kv => kv.1 = k)

/-- Assign every pair of `ps` into `m` in order (a `for` loop of assignments). -/
def dinsertAll (m : List (String × α)) (ps : List (String × α)) : List (String × α) :=
  ps.foldl (fun acc kv => dinsert acc kv.1 kv.2) m

/-- The value of the last pair of `ps` carrying key `k`, if any: the value a
sequence of dictionary assignments leaves at `k`. -/
def lastVal (ps : List (String × α)) (k : String) : Option α :=
  ps.foldl (fun acc kv => if kv.1 = k then some kv.2 else acc) none

end Dict

/-! ### Storage abstraction and the sync pipeline (`src/sync.py`) -/

/-- The storage-provider capabilities the reconciler consumes
(`src/storage/base.py`): a listing function and an existence test.  Reads,
writes and deletes are modelled where the individual claims need them. -/
structure StorageProvider where
  list_files : String → List FileItem
  fileExists : String → Bool

/-- `src/sync.py` `valid_extensions`. -/
def valid_extensions : List String := [".jpg", ".jpeg", ".png", ".webp"]

/-- `src/sync.py` `get_valid_images`: empty when the source directory does not
exist, otherwise the non-directory entries whose lowercase name ends in a
valid extension. -/
def get_valid_images (provider : StorageProvider) (source_dir : String) : List FileItem :=
  if provider.fileExists source_dir then
    (provider.list_files source_dir).filter
      (fun item => !item.is_dir && valid_extensions.any (fun ext => pyEndsWith (pyLower item.name) ext))
  else []

/-- `style.get('name', f"style_{style['index']}")` from `src/sync.py` line 42. -/
def styleName (style : Style) : String :=
  style.name.getD ("style_" ++ toString style.index)

/-- `style_name.replace(' ', '_').lower()` from `src/sync.py` line 44. -/
def styleFolder (style : Style) : String :=
  pyLower (pyReplaceSpace (styleName style))

/-- The original-copy entry inserted at `f"original/{item.name}"`. -/
def originalEntry (item : FileItem) : ExpectedEntry :=
  { source_item := item, style := none,
    output_path := "original/" ++ item.name, is_original := true }

/-- The styled-variant entry inserted at `f"{style_folder}/{item.name}"`. -/
def variantEntry (item : FileItem) (style : Style) : ExpectedEntry :=
  { source_item := item, style := some style,
    output_path := styleFolder style ++ "/" ++ item.name, is_original := false }

/-- `src/sync.py` `map_expected_state`: for each valid image insert the original
entry and then one variant entry per style, into an initially empty dictionary. -/
def map_expected_state (source_provider : StorageProvider) (source_dir : String)
    (styles : List Style) : List (String × ExpectedEntry) :=
  let valid_images := get_valid_images source_provider source_dir
  valid_images.foldl
    (fun acc item =>
      let acc := dinsert acc ("original/" ++ item.name) (originalEntry item)
      styles.foldl
        (fun acc style => dinsert acc (styleFolder style ++ "/" ++ item.name) (variantEntry item style))
        acc)
    []

/-- The `(key, value)` pairs `map_expected_state` assigns, in assignment order. -/
def expectedPairs (images : List FileItem) (styles : List Style) : List (String × ExpectedEntry) :=
  images.flatMap (fun item =>
    ("original/" ++ item.name, originalEntry item) ::
      styles.map (fun style => (styleFolder style ++ "/" ++ item.name, variantEntry item style)))

/-- The relative-path computation of `src/sync.py` lines 70-72:
`rel_path = item.path; if rel_path.startswith(output_dir): rel_path = rel_path[len(output_dir):].lstrip('/')`. -/
def relPath (output_dir : String) (path : String) : String :=
  if pyStartsWith path output_dir then pyLstripSlash (pyDrop path (pyLen output_dir)) else path

/-- `src/sync.py` `clean_output`, returning the list of deleted relative paths.
The provider delete call is modelled by that list; `clean_output_local` below
additionally threads the destination filesystem state. -/
def clean_output (dest_provider : StorageProvider) (expected_state : List (String × ExpectedEntry))
    (output_dir : String) : List String :=
  if dest_provider.fileExists output_dir then
    ((dest_provider.list_files output_dir).filter (fun item => !item.is_dir)).filterMap
      (fun item =>
        let rel := relPath output_dir item.path
        if containsKey expected_state rel then none else some rel)
  else []

/-- `f"{output_dir.rstrip('/')}/{rel_path}"` from `src/sync.py` line 91. -/
def joinTarget (output_dir : String) (rel : String) : String :=
  pyRstripSlash output_dir ++ "/" ++ rel

/-- A task dictionary built by `get_missing_files`: a copy of an expected-state
entry plus the added `full_target_path` field. -/
structure TaskRec where
  entry : ExpectedEntry
  full_target_path : String
deriving DecidableEq, Repr

/-- `src/sync.py` `get_missing_files`: one task per expected key whose resolved
target path does not exist at the destination. -/
def get_missing_files (dest_provider : StorageProvider) (expected_state : List (String × ExpectedEntry))
    (output_dir : String) : List TaskRec :=
  expected_state.filterMap (fun kv =>
    let target_path := joinTarget output_dir kv.1
    if dest_provider.fileExists target_path then none
    else some { entry := kv.2, full_target_path := target_path })

/-! ### Generation backend B (`src/clients/stability.py`) -/

/-- `src/clients/stability.py` lines 25-26:
`influence = 1.0 - strength; influence = max(0.01, min(0.99, influence))`. -/
def stabilityInfluence (strength : ℚ) : ℚ :=
  let influence := 1 - strength
  max (1/100) (min (99/100) influence)

/-- `clamp(x, lo, hi)` as the specification writes it in §6. -/
def specClamp (x lo hi : ℚ) : ℚ := max lo (min hi x)

end StyleSync

namespace StyleSync

/-! ### Dictionary lemmas -/

section DictLemmas

variable {α : Type}

theorem containsKey_iff (m : List (String × α)) (k : String) :
    containsKey m k = true ↔ k ∈ m.map Prod.fst := by
  simp [containsKey, List.any_eq_true, List.mem_map]

theorem dlookup_dinsert_self (m : List (String × α)) (k : String) (v : α) :
    dlookup (dinsert m k v) k = some v := by
  unfold dinsert dlookup
  by_cases hc : (m.any fun kv => decide (kv.1 = k)) = true
  · rw [if_pos hc, List.find?_map]
    have hcomp : ((fun kv : String × α => decide (kv.1 = k)) ∘
        (fun kv => if kv.1 = k then (k, v) else kv)) = fun kv : String × α => decide (kv.1 = k) := by
      funext kv
      by_cases hk : kv.1 = k <;> simp [Function.comp, hk]
    rw [hcomp]
    have hfind : (m.find? (fun kv => decide (kv.1 = k))).isSome := by
      rw [List.find?_isSome]
      simpa [List.any_eq_true] using hc
    obtain ⟨w, hw⟩ := Option.isSome_iff_exists.mp hfind
    have hwk : w.1 = k := by simpa using List.find?_some hw
    rw [hw]
    simp [hwk]
  · rw [if_neg hc]
    have hnone : m.find? (fun kv => decide (kv.1 = k)) = none := by
      rw [List.find?_eq_none]
      intro x hx
      simp only [decide_eq_true_eq]
      intro hxk
      exact hc (List.any_eq_true.mpr ⟨x, hx, by simp [hxk]⟩)
    rw [List.find?_append, hnone]
    simp

theorem dlookup_dinsert_of_ne (m : List (String × α)) (k k' : String) (v : α) (h : k' ≠ k) :
    dlookup (dinsert m k v) k' = dlookup m k' := by
  unfold dinsert dlookup
  by_cases hc : (m.any fun kv => decide (kv.1 = k)) = true
  · rw [if_pos hc, List.find?_map]
    have hcomp : ((fun kv : String × α => decide (kv.1 = k')) ∘
        (fun kv => if kv.1 = k then (k, v) else kv)) = fun kv : String × α => decide (kv.1 = k') := by
      funext kv
      by_cases hk : kv.1 = k
      · have : ¬ k = k' := fun he => h he.symm
        simp [Function.comp, hk, this]
      · simp [Function.comp, hk]
    rw [hcomp]
    cases hfind : m.find? (fun kv => decide (kv.1 = k')) with
    | none => simp
    | some w =>
      have hwk : w.1 = k' := by simpa using List.find?_some hfind
      have hwne : ¬ w.1 = k := by rw [hwk]; exact h
      simp [hwne]
  · rw [if_neg hc, List.find?_append]
    cases hfind : m.find? (fun kv => decide (kv.1 = k')) with
    | none =>
      simp only [Option.none_or]
      have hne : ¬ k = k' := fun he => h he.symm
      simp [hne]
    | some w => simp

theorem dinsert_keys (m : List (String × α)) (k : String) (v : α) :
    (dinsert m k v).map Prod.fst =
      if containsKey m k then m.map Prod.fst else m.map Prod.fst ++ [k] := by
  unfold dinsert
  by_cases hc : (m.any fun kv => decide (kv.1 = k)) = true
  · have hck : containsKey m k = true := hc
    rw [if_pos hc, if_pos hck, List.map_map]
    exact List.map_congr_left
      (fun kv _ => by by_cases hk : kv.1 = k <;> simp [Function.comp, hk])
  · have hck : ¬ containsKey m k = true := hc
    rw [if_neg hc, if_neg hck, List.map_append]
    rfl

theorem dinsert_length (m : List (String × α)) (k : String) (v : α) :
    (dinsert m k v).length = if containsKey m k then m.length else m.length + 1 := by
  unfold dinsert
  by_cases hc : (m.any fun kv => decide (kv.1 = k)) = true
  · have hck : containsKey m k = true := hc
    rw [if_pos hc, if_pos hck, List.length_map]
  · have hck : ¬ containsKey m k = true := hc
    rw [if_neg hc, if_neg hck, List.length_append]
    rfl

theorem mem_dinsert (m : List (String × α)) (k : String) (v : α) (x : String × α)
    (hx : x ∈ dinsert m k v) : x ∈ m ∨ x = (k, v) := by
  unfold dinsert at hx
  by_cases hc : (m.any fun kv => decide (kv.1 = k)) = true
  · rw [if_pos hc] at hx
    rcases List.mem_map.mp hx with ⟨kv, hkv, hfx⟩
    by_cases hk : kv.1 = k
    · right
      rw [if_pos hk] at hfx
      exact hfx.symm
    · left
      rw [if_neg hk] at hfx
      exact hfx ▸ hkv
  · rw [if_neg hc] at hx
    rcases List.mem_append.mp hx with h' | h'
    · exact Or.inl h'
    · exact Or.inr (by simpa using h')

theorem dinsertAll_nil (m : List (String × α)) : dinsertAll m [] = m := rfl

theorem dinsertAll_cons (m : List (String × α)) (p : String × α) (ps : List (String × α)) :
    dinsertAll m (p :: ps) = dinsertAll (dinsert m p.1 p.2) ps := rfl

theorem dinsertAll_append (m : List (String × α)) (a b : List (String × α)) :
    dinsertAll m (a ++ b) = dinsertAll (dinsertAll m a) b :=
  List.foldl_append _ _ _ _

theorem lastVal_acc (ps : List (String × α)) (k : String) (acc : Option α) :
    ps.foldl (fun a kv => if kv.1 = k then some kv.2 else a) acc
      = match ps.foldl (fun a kv => if kv.1 = k then some kv.2 else a) none with
        | some v => some v
        | none => acc := by
  induction ps generalizing acc with
  | nil => simp
  | cons q qs ih =>
    simp only [List.foldl_cons]
    rw [ih, ih (if q.1 = k then some q.2 else none)]
    cases hq : qs.foldl (fun a kv => if kv.1 = k then some kv.2 else a) none with
    | some v => simp
    | none => by_cases hk : q.1 = k <;> simp [hk]

theorem lastVal_cons (q : String × α) (qs : List (String × α)) (k : String) :
    lastVal (q :: qs) k
      = match lastVal qs k with
        | some v => some v
        | none => if q.1 = k then some q.2 else none := by
  unfold lastVal
  simp only [List.foldl_cons]
  rw [lastVal_acc]

theorem lastVal_append_some (a b : List (String × α)) (k : String) (v : α)
    (h : lastVal b k = some v) : lastVal (a ++ b) k = some v := by
  unfold lastVal at *
  rw [List.foldl_append, lastVal_acc, h]

theorem lastVal_append_none (a b : List (String × α)) (k : String)
    (h : lastVal b k = none) : lastVal (a ++ b) k = lastVal a k := by
  unfold lastVal at *
  rw [List.foldl_append, lastVal_acc, h]

theorem lastVal_of_not_mem (ps : List (String × α)) (k : String)
    (h : ∀ p ∈ ps, p.1 ≠ k) : lastVal ps k = none := by
  induction ps with
  | nil => rfl
  | cons q qs ih =>
    unfold lastVal at *
    simp only [List.foldl_cons]
    rw [lastVal_acc]
    have hq : ¬ q.1 = k := h q (List.mem_cons_self q qs)
    rw [ih (fun p hp => h p (List.mem_cons_of_mem q hp))]
    simp [hq]

theorem dlookup_dinsertAll_none (m ps : List (String × α)) (k : String)
    (h : lastVal ps k = none) : dlookup (dinsertAll m ps) k = dlookup m k := by
  induction ps generalizing m with
  | nil => rfl
  | cons q qs ih =>
    rw [dinsertAll_cons]
    rw [lastVal_cons] at h
    cases hq : lastVal qs k with
    | some w =>
      rw [hq] at h
      simp at h
    | none =>
      rw [hq] at h
      by_cases hk : q.1 = k
      · rw [if_pos hk] at h
        cases h
      · rw [ih _ hq]
        exact dlookup_dinsert_of_ne m q.1 k q.2 (fun hkk => hk hkk.symm)

theorem dlookup_dinsertAll_some (m ps : List (String × α)) (k : String) (v : α)
    (h : lastVal ps k = some v) : dlookup (dinsertAll m ps) k = some v := by
  induction ps generalizing m with
  | nil => simp [lastVal] at h
  | cons q qs ih =>
    rw [dinsertAll_cons]
    rw [lastVal_cons] at h
    cases hq : lastVal qs k with
    | some w =>
      rw [hq] at h
      obtain rfl : w = v := by simpa using h
      exact ih _ hq
    | none =>
      rw [hq] at h
      by_cases hk : q.1 = k
      · rw [if_pos hk] at h
        obtain rfl : q.2 = v := by simpa using h
        rw [dlookup_dinsertAll_none _ _ _ hq]
        rw [show dinsert m q.1 q.2 = dinsert m k q.2 by rw [hk]]
        exact dlookup_dinsert_self m k q.2
      · rw [if_neg hk] at h
        cases h

theorem mem_dinsertAll (m ps : List (String × α)) (x : String × α)
    (hx : x ∈ dinsertAll m ps) : x ∈ m ∨ x ∈ ps := by
  induction ps generalizing m with
  | nil => exact Or.inl hx
  | cons q qs ih =>
    rw [dinsertAll_cons] at hx
    rcases ih _ hx with h | h
    · rcases mem_dinsert _ _ _ _ h with h' | h'
      · exact Or.inl h'
      · exact Or.inr (by simp [h'])
    · exact Or.inr (List.mem_cons_of_mem q h)

theorem dinsertAll_eq_append (m ps : List (String × α))
    (h : (m.map Prod.fst ++ ps.map Prod.fst).Nodup) : dinsertAll m ps = m ++ ps := by
  induction ps generalizing m with
  | nil => simp [dinsertAll_nil]
  | cons q qs ih =>
    rw [dinsertAll_cons]
    have hnot : ¬ containsKey m q.1 = true := by
      rw [containsKey_iff]
      intro hin
      rcases List.nodup_append.mp h with ⟨_, _, hdisj⟩
      exact hdisj hin (by simp)
    have hq : dinsert m q.1 q.2 = m ++ [q] := by
      unfold dinsert
      have hc : ¬ (m.any fun kv => decide (kv.1 = q.1)) = true := hnot
      rw [if_neg hc]
    rw [hq]
    have hkeys : ((m ++ [q]).map Prod.fst ++ qs.map Prod.fst).Nodup := by
      rw [List.map_append, List.append_assoc]
      simpa using h
    rw [ih _ hkeys]
    simp

theorem dinsertAll_nil_left (ps : List (String × α))
    (h : (ps.map Prod.fst).Nodup) : dinsertAll [] ps = ps := by
  have := dinsertAll_eq_append [] ps (by simpa using h)
  simpa using this

theorem dlookup_of_nodup_mem (ps : List (String × α)) (k : String) (v : α)
    (h : (ps.map Prod.fst).Nodup) (hm : (k, v) ∈ ps) : dlookup ps k = some v := by
  induction ps with
  | nil => cases hm
  | cons q qs ih =>
    rw [List.map_cons, List.nodup_cons] at h
    by_cases hk : q.1 = k
    · have hq : q = (k, v) := by
        rcases List.mem_cons.mp hm with h' | h'
        · exact h'.symm
        · exfalso
          have hkin : k ∈ qs.map Prod.fst := List.mem_map.mpr ⟨(k, v), h', rfl⟩
          exact h.1 (hk ▸ hkin)
      unfold dlookup
      rw [List.find?_cons_of_pos qs (by simp [hk])]
      simp [hq]
    · have h' : (k, v) ∈ qs := by
        rcases List.mem_cons.mp hm with h'' | h''
        · exact absurd (congrArg Prod.fst h''.symm) hk
        · exact h''
      have := ih h.2 h'
      unfold dlookup at *
      rw [List.find?_cons_of_neg qs (by simp [hk])]
      exact this

end DictLemmas

/-! ### String cancellation -/

theorem string_append_cancel_left (a b c : String) (h : a ++ b = a ++ c) : b = c := by
  have hd : a.data ++ b.data = a.data ++ c.data := by
    have := congrArg String.data h
    simpa [String.data_append] using this
  exact String.ext (List.append_cancel_left hd)

theorem string_append_cancel_right (a b c : String) (h : a ++ c = b ++ c) : a = b := by
  have hd : a.data ++ c.data = b.data ++ c.data := by
    have := congrArg String.data h
    simpa [String.data_append] using this
  exact String.ext (List.append_cancel_right hd)

/-! ### The expected-state map as a pair list -/

theorem dinsertAll_flatMap {β : Type} (f : β → List (String × ExpectedEntry))
    (l : List β) (m : List (String × ExpectedEntry)) :
    l.foldl (fun acc x => dinsertAll acc (f x)) m = dinsertAll m (l.flatMap f) := by
  induction l generalizing m with
  | nil => rfl
  | cons x xs ih =>
    simp only [List.foldl_cons, List.flatMap_cons]
    rw [ih, dinsertAll_append]

theorem map_expected_state_eq (p : StorageProvider) (dir : String) (styles : List Style) :
    map_expected_state p dir styles
      = dinsertAll [] (expectedPairs (get_valid_images p dir) styles) := by
  unfold map_expected_state expectedPairs
  have hinner : ∀ (acc : List (String × ExpectedEntry)) (item : FileItem),
      (styles.foldl
        (fun acc style => dinsert acc (styleFolder style ++ "/" ++ item.name) (variantEntry item style))
        (dinsert acc ("original/" ++ item.name) (originalEntry item)))
      = dinsertAll acc
          (("original/" ++ item.name, originalEntry item) ::
            styles.map (fun style => (styleFolder style ++ "/" ++ item.name, variantEntry item style))) := by
    intro acc item
    rw [dinsertAll_cons]
    unfold dinsertAll
    rw [List.foldl_map]
  have houter :
      (fun (acc : List (String × ExpectedEntry)) (item : FileItem) =>
        styles.foldl
          (fun acc style => dinsert acc (styleFolder style ++ "/" ++ item.name) (variantEntry item style))
          (dinsert acc ("original/" ++ item.name) (originalEntry item)))
      = (fun acc item =>
          dinsertAll acc
            (("original/" ++ item.name, originalEntry item) ::
              styles.map (fun style => (styleFolder style ++ "/" ++ item.name, variantEntry item style)))) := by
    funext acc item
    exact hinner acc item
  rw [houter, dinsertAll_flatMap]

theorem expectedPairs_length (images : List FileItem) (styles : List Style) :
    (expectedPairs images styles).length = images.length * (styles.length + 1) := by
  induction images with
  | nil => simp [expectedPairs]
  | cons i is ih =>
    simp only [expectedPairs, List.flatMap_cons, List.length_append, List.length_cons,
      List.length_map] at *
    rw [ih]
    ring

theorem mem_expectedPairs (images : List FileItem) (styles : List Style)
    (kv : String × ExpectedEntry) (h : kv ∈ expectedPairs images styles) :
    ∃ item ∈ images,
      kv = ("original/" ++ item.name, originalEntry item) ∨
      ∃ s ∈ styles, kv = (styleFolder s ++ "/" ++ item.name, variantEntry item s) := by
  unfold expectedPairs at h
  rcases List.mem_flatMap.mp h with ⟨item, hitem, hkv⟩
  rcases List.mem_cons.mp hkv with h' | h'
  · exact ⟨item, hitem, Or.inl h'⟩
  · rcases List.mem_map.mp h' with ⟨s, hs, hkv'⟩
    exact ⟨item, hitem, Or.inr ⟨s, hs, hkv'.symm⟩⟩

theorem expectedPairs_countP_original (images : List FileItem) (styles : List Style) :
    (expectedPairs images styles).countP (fun kv => kv.2.is_original) = images.length := by
  induction images with
  | nil => simp [expectedPairs]
  | cons i is ih =>
    simp only [expectedPairs, List.flatMap_cons, List.countP_append, List.countP_cons] at *
    rw [ih]
    have hvar : (styles.map (fun style =>
        (styleFolder style ++ "/" ++ i.name, variantEntry i style))).countP
          (fun kv => kv.2.is_original) = 0 := by
      rw [List.countP_eq_zero]
      intro kv hkv
      rcases List.mem_map.mp hkv with ⟨s, _, rfl⟩
      simp [variantEntry]
    rw [hvar]
    simp [originalEntry]
    omega

theorem expectedPairs_countP_variant (images : List FileItem) (styles : List Style) :
    (expectedPairs images styles).countP (fun kv => !kv.2.is_original)
      = images.length * styles.length := by
  induction images with
  | nil => simp [expectedPairs]
  | cons i is ih =>
    simp only [expectedPairs, List.flatMap_cons, List.countP_append, List.countP_cons] at *
    rw [ih]
    have hvar : (styles.map (fun style =>
        (styleFolder style ++ "/" ++ i.name, variantEntry i style))).countP
          (fun kv => !kv.2.is_original) = styles.length := by
      rw [List.countP_map, List.countP_eq_length]
      intro s _
      simp [Function.comp, variantEntry]
    rw [hvar]
    simp [originalEntry]
    ring

/-- C1: when the destination already equals the expected state — every listed
non-directory entry under the output directory has an expected relative path,
and every expected key resolves to an existing target — `clean_output` deletes
nothing and `get_missing_files` emits no task, so a second run over unchanged
source and destination produces zero tasks and zero deletions. -/
theorem second_run_zero_tasks_zero_deletions
    (dest : StorageProvider) (expected : List (String × ExpectedEntry)) (output_dir : String)
    (hclean : ∀ item ∈ dest.list_files output_dir, item.is_dir = false →
      containsKey expected (relPath output_dir item.path) = true)
    (hexists : ∀ kv ∈ expected, dest.fileExists (joinTarget output_dir kv.1) = true) :
    clean_output dest expected output_dir = [] ∧
    get_missing_files dest expected output_dir = [] := by
  constructor
  · unfold clean_output
    by_cases hd : dest.fileExists output_dir = true
    · rw [if_pos hd]
      rw [List.filterMap_eq_nil_iff]
      intro item hitem
      have h1 := List.mem_filter.mp hitem
      have h2 : item.is_dir = false := by simpa using h1.2
      have h3 := hclean item h1.1 h2
      simp [h3]
    · rw [if_neg hd]
  · unfold get_missing_files
    rw [List.filterMap_eq_nil_iff]
    intro kv hkv
    have h3 := hexists kv hkv
    simp [h3]

def c1style : Style :=
  { name := some "Sketch", prompt_text := "pencil sketch", strength := 3/5, index := 0 }

def c1imgA : FileItem :=
  { name := "a.jpg", is_dir := false, size := some 10, path := "src/a.jpg" }

def c1imgB : FileItem :=
  { name := "b.png", is_dir := false, size := some 12, path := "src/b.png" }

def c1source : StorageProvider :=
  { list_files := fun d => if d = "src" then [c1imgA, c1imgB] else [],
    fileExists := fun p => p = "src" || p = "src/a.jpg" || p = "src/b.png" }

def c1expected : List (String × ExpectedEntry) :=
  map_expected_state c1source "src" [c1style]

def c1dest : StorageProvider :=
  { list_files := fun d =>
      if d = "out" then
        [{ name := "original", is_dir := true, size := none, path := "out/original" },
         { name := "sketch", is_dir := true, size := none, path := "out/sketch" }]
      else [],
    fileExists := fun p =>
      p = "out" || p = "out/original/a.jpg" || p = "out/original/b.png" ||
        p = "out/sketch/a.jpg" || p = "out/sketch/b.png" }

/-- Witness for C1 at a concrete two-image, one-style synchronized state. -/
theorem second_run_zero_tasks_zero_deletions_witness :
    clean_output c1dest c1expected "out" = [] ∧
    get_missing_files c1dest c1expected "out" = [] :=
  second_run_zero_tasks_zero_deletions c1dest c1expected "out" (by decide) (by decide)

def c2src : StorageProvider :=
  { list_files := fun d => if d = "src" then [c1imgA] else [],
    fileExists := fun p => p = "src" || p = "src/a.jpg" }

def c2styleX : Style := { name := some "A b", prompt_text := "p1", strength := 1/2, index := 0 }

def c2styleY : Style := { name := some "a B", prompt_text := "p2", strength := 1/2, index := 1 }

/-- C2 counterexample: one valid source image and two styles whose names both
normalize to the folder `a_b` yield an expected-state map with two entries,
not N*(S+1) = 3: the claim fails for style lists with colliding normalized
names. -/
theorem expected_state_size_counterexample :
    (get_valid_images c2src "src").length = 1 ∧
    (List.length [c2styleX, c2styleY]) = 2 ∧
    (map_expected_state c2src "src" [c2styleX, c2styleY]).length ≠ 1 * (2 + 1) := by
  decide

/-- C2 (amended): when the N*(S+1) generated keys are pairwise distinct (no
normalized-style-name collision and no duplicate image name), the expected-state
map has exactly N*(S+1) entries — N originals and N·S variants, no two sharing
a key — and every key is `original/<name>` or `<normalized folder>/<name>`. -/
theorem expected_state_size_nodup (p : StorageProvider) (dir : String) (styles : List Style)
    (h : ((expectedPairs (get_valid_images p dir) styles).map Prod.fst).Nodup) :
    (map_expected_state p dir styles).length
        = (get_valid_images p dir).length * (styles.length + 1) ∧
    (map_expected_state p dir styles).countP (fun kv => kv.2.is_original)
        = (get_valid_images p dir).length ∧
    (map_expected_state p dir styles).countP (fun kv => !kv.2.is_original)
        = (get_valid_images p dir).length * styles.length ∧
    ((map_expected_state p dir styles).map Prod.fst).Nodup ∧
    ∀ kv ∈ map_expected_state p dir styles,
      ∃ item ∈ get_valid_images p dir,
        kv.1 = "original/" ++ item.name ∨
        ∃ s ∈ styles, kv.1 = styleFolder s ++ "/" ++ item.name := by
  rw [map_expected_state_eq, dinsertAll_nil_left _ h]
  refine ⟨expectedPairs_length _ _, expectedPairs_countP_original _ _,
    expectedPairs_countP_variant _ _, h, ?_⟩
  intro kv hkv
  rcases mem_expectedPairs _ _ kv hkv with ⟨item, hitem, hcase⟩
  rcases hcase with h1 | ⟨s, hs, h2⟩
  · exact ⟨item, hitem, Or.inl (by rw [h1])⟩
  · exact ⟨item, hitem, Or.inr ⟨s, hs, by rw [h2]⟩⟩

/-- Witness for the amended C2 at one image and one style. -/
theorem expected_state_size_nodup_witness :
    (map_expected_state c2src "src" [c2styleX]).length
        = (get_valid_images c2src "src").length * (List.length [c2styleX] + 1) ∧
    (map_expected_state c2src "src" [c2styleX]).countP (fun kv => kv.2.is_original)
        = (get_valid_images c2src "src").length ∧
    (map_expected_state c2src "src" [c2styleX]).countP (fun kv => !kv.2.is_original)
        = (get_valid_images c2src "src").length * List.length [c2styleX] ∧
    ((map_expected_state c2src "src" [c2styleX]).map Prod.fst).Nodup ∧
    ∀ kv ∈ map_expected_state c2src "src" [c2styleX],
      ∃ item ∈ get_valid_images c2src "src",
        kv.1 = "original/" ++ item.name ∨
        ∃ s ∈ [c2styleX], kv.1 = styleFolder s ++ "/" ++ item.name :=
  expected_state_size_nodup c2src "src" [c2styleX] (by decide)

/-- C5: the variant folder is the style name lowercased with spaces replaced by
underscores (`"Geometric 3D"` gives `"geometric_3d"`), and when a style `si`
and a later style `sj` normalize to the same folder — `sj` being the last style
with that folder — the expected-state map holds, at their shared key, the entry
of the later style `sj`, which differs from the overwritten entry of `si`. -/
theorem style_folder_normalization_collision
    (p : StorageProvider) (dir : String) (pre post : List Style) (rest : List FileItem)
    (si sj : Style) (img : FileItem)
    (himg : get_valid_images p dir = rest ++ [img])
    (hi : si ∈ pre) (hne : si ≠ sj)
    (hfold : styleFolder si = styleFolder sj)
    (hpost : ∀ s ∈ post, styleFolder s ≠ styleFolder sj) :
    (∀ pt st idx, styleFolder
        { name := some "Geometric 3D", prompt_text := pt, strength := st, index := idx }
        = "geometric_3d") ∧
    dlookup (map_expected_state p dir (pre ++ sj :: post))
        (styleFolder sj ++ "/" ++ img.name) = some (variantEntry img sj) ∧
    variantEntry img sj ≠ variantEntry img si := by
  refine ⟨?_, ?_, ?_⟩
  · intro pt st idx
    show pyLower (pyReplaceSpace "Geometric 3D") = "geometric_3d"
    decide
  · rw [map_expected_state_eq, himg]
    apply dlookup_dinsertAll_some
    have hsplit : expectedPairs (rest ++ [img]) (pre ++ sj :: post)
        = expectedPairs rest (pre ++ sj :: post) ++ expectedPairs [img] (pre ++ sj :: post) := by
      unfold expectedPairs
      rw [List.flatMap_append]
    rw [hsplit]
    apply lastVal_append_some
    have himgpairs : expectedPairs [img] (pre ++ sj :: post)
        = (("original/" ++ img.name, originalEntry img) ::
            (pre.map (fun s => (styleFolder s ++ "/" ++ img.name, variantEntry img s)))) ++
          ((styleFolder sj ++ "/" ++ img.name, variantEntry img sj) ::
            (post.map (fun s => (styleFolder s ++ "/" ++ img.name, variantEntry img s)))) := by
      simp only [expectedPairs, List.flatMap_cons, List.flatMap_nil, List.append_nil,
        List.map_append, List.map_cons, List.cons_append]
    rw [himgpairs]
    apply lastVal_append_some
    rw [lastVal_cons]
    have hnone : lastVal (post.map fun s => (styleFolder s ++ "/" ++ img.name, variantEntry img s))
        (styleFolder sj ++ "/" ++ img.name) = none := by
      apply lastVal_of_not_mem
      intro q hq
      rcases List.mem_map.mp hq with ⟨s, hs, rfl⟩
      intro hkey
      have h1 : styleFolder s ++ "/" = styleFolder sj ++ "/" :=
        string_append_cancel_right _ _ _ hkey
      have h2 : styleFolder s = styleFolder sj := string_append_cancel_right _ _ _ h1
      exact hpost s hs h2
    rw [hnone]
    simp
  · intro hcontra
    apply hne
    have hstyle := congrArg ExpectedEntry.style hcontra
    simp [variantEntry] at hstyle
    exact hstyle.symm

def c5imgA : FileItem :=
  { name := "a.jpg", is_dir := false, size := some 10, path := "src/a.jpg" }

def c5src : StorageProvider :=
  { list_files := fun d => if d = "src" then [c5imgA] else [],
    fileExists := fun p => p = "src" || p = "src/a.jpg" }

def c5s1 : Style := { name := some "Geometric 3D", prompt_text := "wire", strength := 1/2, index := 0 }

def c5s2 : Style := { name := some "geometric 3d", prompt_text := "mesh", strength := 1/3, index := 1 }

/-- Witness for C5: two styles both normalizing to `geometric_3d`; the later
one owns the shared key. -/
theorem style_folder_normalization_collision_witness :
    (∀ pt st idx, styleFolder
        { name := some "Geometric 3D", prompt_text := pt, strength := st, index := idx }
        = "geometric_3d") ∧
    dlookup (map_expected_state c5src "src" ([c5s1] ++ c5s2 :: []))
        (styleFolder c5s2 ++ "/" ++ c5imgA.name) = some (variantEntry c5imgA c5s2) ∧
    variantEntry c5imgA c5s2 ≠ variantEntry c5imgA c5s1 :=
  style_folder_normalization_collision c5src "src" [c5s1] [] [] c5s1 c5s2 c5imgA
    (by decide) (List.mem_cons_self c5s1 [])
    (fun h => by simpa [c5s1, c5s2] using congrArg Style.name h)
    (by decide) (by decide)

/-- C10: a style entry without a `name` key does not fail the expected-state
builder: its folder is built from the fallback `style_<index>`, and (when the
generated keys are collision-free) every image gets exactly one variant entry
for that style, stored at `style_<index>/<image name>`. -/
theorem nameless_style_fallback (p : StorageProvider) (dir : String) (styles : List Style)
    (s0 : Style) (hmem : s0 ∈ styles) (hname : s0.name = none)
    (hnodup : ((expectedPairs (get_valid_images p dir) styles).map Prod.fst).Nodup) :
    styleName s0 = "style_" ++ toString s0.index ∧
    ∀ img ∈ get_valid_images p dir,
      dlookup (map_expected_state p dir styles) (styleFolder s0 ++ "/" ++ img.name)
        = some (variantEntry img s0) ∧
      ((map_expected_state p dir styles).map Prod.fst).count
        (styleFolder s0 ++ "/" ++ img.name) = 1 := by
  constructor
  · simp [styleName, hname]
  · intro img himg
    have hpair : (styleFolder s0 ++ "/" ++ img.name, variantEntry img s0)
        ∈ expectedPairs (get_valid_images p dir) styles := by
      unfold expectedPairs
      apply List.mem_flatMap.mpr
      refine ⟨img, himg, ?_⟩
      exact List.mem_cons_of_mem _ (List.mem_map.mpr ⟨s0, hmem, rfl⟩)
    rw [map_expected_state_eq, dinsertAll_nil_left _ hnodup]
    refine ⟨dlookup_of_nodup_mem _ _ _ hnodup hpair, ?_⟩
    have hk : (styleFolder s0 ++ "/" ++ img.name)
        ∈ (expectedPairs (get_valid_images p dir) styles).map Prod.fst :=
      List.mem_map.mpr ⟨_, hpair, rfl⟩
    exact List.count_eq_one_of_mem hnodup hk

def c10img : FileItem :=
  { name := "a.jpg", is_dir := false, size := some 10, path := "src/a.jpg" }

def c10src : StorageProvider :=
  { list_files := fun d => if d = "src" then [c10img] else [],
    fileExists := fun p => p = "src" || p = "src/a.jpg" }

def c10style : Style := { name := none, prompt_text := "p", strength := 1/2, index := 3 }

/-- Witness for C10: a single nameless style with index 3 produces the variant
key `style_3/a.jpg`. -/
theorem nameless_style_fallback_witness :
    styleName c10style = "style_" ++ toString c10style.index ∧
    ∀ img ∈ get_valid_images c10src "src",
      dlookup (map_expected_state c10src "src" [c10style])
        (styleFolder c10style ++ "/" ++ img.name) = some (variantEntry img c10style) ∧
      ((map_expected_state c10src "src" [c10style]).map Prod.fst).count
        (styleFolder c10style ++ "/" ++ img.name) = 1 :=
  nameless_style_fallback c10src "src" [c10style] c10style
    (List.mem_cons_self c10style []) rfl (by decide)

/-! ### Local storage provider over a modelled filesystem (`src/storage/local.py`)

The local filesystem is modelled as the list of its file paths (strings with
`/`-separated segments).  `Path.exists` holds for a listed file and for any
directory some file lies under; `Path.iterdir` yields only the immediate
children of a directory — it does not recurse. -/

/-- `LocalStorageProvider.exists` over the modelled filesystem. -/
def local_exists (fs : List String) (p : String) : Bool :=
  fs.any (fun f => f = p || pyStartsWith f (p ++ "/"))

/-- The first path segment of `rest`. -/
def firstSeg (rest : String) : String := ⟨rest.data.takeWhile (fun c => c ≠ '/')⟩

/-- Whether `rest` contains a further path separator, i.e. the child entry is a
directory. -/
def isNested (rest : String) : Bool := rest.data.contains '/'

/-- `LocalStorageProvider.list_files`: `Path.iterdir` — the immediate children
of `dir`, each flagged as a directory when files lie strictly below it;
empty when `dir` does not exist. -/
def local_list_files (fs : List String) (dir : String) : List FileItem :=
  if local_exists fs dir then
    (fs.filterMap (fun f =>
        if pyStartsWith f (dir ++ "/") then some (pyDrop f (pyLen (dir ++ "/"))) else none)).foldl
      (fun acc rest =>
        let child := firstSeg rest
        if acc.any (fun item => item.name = child) then acc
        else acc ++ [{ name := child, is_dir := isNested rest, size := none,
                       path := dir ++ "/" ++ child }])
      []
  else []

/-- `LocalStorageProvider.delete_file`: remove the path, and everything under
it when it is a directory; a no-op when absent. -/
def local_delete (fs : List String) (p : String) : List String :=
  fs.filter (fun f => !(f = p || pyStartsWith f (p ++ "/")))

/-- `src/sync.py` `clean_output` run against the modelled local provider,
returning the filesystem after the deletions together with the deleted
relative paths. -/
def clean_output_local (fs : List String) (expected_state : List (String × ExpectedEntry))
    (output_dir : String) : List String × List String :=
  if local_exists fs output_dir then
    (local_list_files fs output_dir).foldl
      (fun acc item =>
        if !item.is_dir then
          let rel := relPath output_dir item.path
          if containsKey expected_state rel then acc
          else (local_delete acc.1 item.path, acc.2 ++ [rel])
        else acc)
      (fs, [])
  else (fs, [])

def c3img : FileItem :=
  { name := "a.jpg", is_dir := false, size := some 10, path := "src/a.jpg" }

def c3src : StorageProvider :=
  { list_files := fun d => if d = "src" then [c3img] else [],
    fileExists := fun p => p = "src" || p = "src/a.jpg" }

def c3expected : List (String × ExpectedEntry) := map_expected_state c3src "src" []

def c3fs : List String := ["out/original/a.jpg", "out/oldstyle/a.jpg"]

/-- C3 (code-bug evidence): `out/oldstyle/a.jpg` is a destination file whose
relative path `oldstyle/a.jpg` is not an expected key, yet `clean_output` over
the local provider deletes nothing and returns an empty orphan list, because
`clean_output`'s comment assumes a recursive listing ("List all files
recursively in output_dir") while `LocalStorageProvider.list_files` yields only
the immediate children (here two directory entries, which the loop skips). -/
theorem clean_output_misses_nested_orphan :
    relPath "out" "out/oldstyle/a.jpg" = "oldstyle/a.jpg" ∧
    containsKey c3expected "oldstyle/a.jpg" = false ∧
    "out/oldstyle/a.jpg" ∈ c3fs ∧
    clean_output_local c3fs c3expected "out" = (c3fs, []) ∧
    local_list_files c3fs "out"
      = [{ name := "original", is_dir := true, size := none, path := "out/original" },
         { name := "oldstyle", is_dir := true, size := none, path := "out/oldstyle" }] := by
  decide

/-! ### Missing-task characterization (`src/sync.py` `get_missing_files`) -/

theorem mem_get_missing_files (dest : StorageProvider) (expected : List (String × ExpectedEntry))
    (output_dir : String) (t : TaskRec) (ht : t ∈ get_missing_files dest expected output_dir) :
    ∃ kv ∈ expected, dest.fileExists (joinTarget output_dir kv.1) = false ∧
      t = { entry := kv.2, full_target_path := joinTarget output_dir kv.1 } := by
  unfold get_missing_files at ht
  rcases List.mem_filterMap.mp ht with ⟨kv, hkv, hf⟩
  by_cases he : dest.fileExists (joinTarget output_dir kv.1) = true
  · simp [he] at hf
  · refine ⟨kv, hkv, by simpa using he, ?_⟩
    simp only [he, Bool.false_eq_true, if_false, Option.some.injEq] at hf
    exact hf.symm

theorem get_missing_files_mem_of (dest : StorageProvider) (expected : List (String × ExpectedEntry))
    (output_dir : String) (kv : String × ExpectedEntry) (hkv : kv ∈ expected)
    (he : dest.fileExists (joinTarget output_dir kv.1) = false) :
    ({ entry := kv.2, full_target_path := joinTarget output_dir kv.1 } : TaskRec)
      ∈ get_missing_files dest expected output_dir := by
  unfold get_missing_files
  apply List.mem_filterMap.mpr
  exact ⟨kv, hkv, by simp [he]⟩

theorem joinTarget_inj (output_dir k1 k2 : String)
    (h : joinTarget output_dir k1 = joinTarget output_dir k2) : k1 = k2 := by
  unfold joinTarget at h
  exact string_append_cancel_left _ _ _ h

theorem get_missing_files_targets (dest : StorageProvider)
    (expected : List (String × ExpectedEntry)) (od : String) :
    (get_missing_files dest expected od).map (fun t => t.full_target_path)
      = (expected.filter (fun kv => !dest.fileExists (joinTarget od kv.1))).map
          (fun kv => joinTarget od kv.1) := by
  induction expected with
  | nil => rfl
  | cons kv rest ih =>
    unfold get_missing_files at *
    simp only [List.filterMap_cons, List.filter_cons]
    by_cases he : dest.fileExists (joinTarget od kv.1) = true
    · simp [he, ih]
    · simp only [Bool.not_eq_true] at he
      simp [he, ih]

theorem get_missing_files_outputs (dest : StorageProvider)
    (expected : List (String × ExpectedEntry)) (od : String)
    (hout : ∀ kv ∈ expected, kv.2.output_path = kv.1) :
    (get_missing_files dest expected od).map (fun t => t.entry.output_path)
      = (expected.filter (fun kv => !dest.fileExists (joinTarget od kv.1))).map Prod.fst := by
  induction expected with
  | nil => rfl
  | cons kv rest ih =>
    have hkv := hout kv (List.mem_cons_self _ _)
    have hrest := ih (fun x hx => hout x (List.mem_cons_of_mem _ hx))
    unfold get_missing_files at *
    simp only [List.filterMap_cons, List.filter_cons]
    by_cases he : dest.fileExists (joinTarget od kv.1) = true
    · simp [he, hrest]
    · simp only [Bool.not_eq_true] at he
      simp [he, hrest, hkv]

theorem eq_singleton_of_nodup_mem {β : Type} (l : List β) (a : β)
    (hnd : l.Nodup) (hmem : a ∈ l) (hall : ∀ b ∈ l, b = a) : l = [a] := by
  cases l with
  | nil => cases hmem
  | cons x xs =>
    have hx : x = a := hall x (by simp)
    cases xs with
    | nil => rw [hx]
    | cons y ys =>
      exfalso
      have hy : y = a := hall y (by simp)
      have hnotin := (List.nodup_cons.mp hnd).1
      rw [hx, hy] at hnotin
      exact hnotin (List.mem_cons_self a ys)

theorem nodup_keys_val_eq {β : Type} (l : List (String × β)) (k : String) (a b : β)
    (h : (l.map Prod.fst).Nodup) (ha : (k, a) ∈ l) (hb : (k, b) ∈ l) : a = b := by
  have h1 := dlookup_of_nodup_mem l k a h ha
  have h2 := dlookup_of_nodup_mem l k b h hb
  rw [h1] at h2
  exact (Option.some.inj h2.symm).symm

theorem keys_filter_not_missing {β : Type} (l : List (String × β)) (q : String × β → Bool)
    (h : (l.map Prod.fst).Nodup) :
    (l.map Prod.fst).filter
        (fun k => !(((l.filter (fun kv => !q kv)).map Prod.fst).contains k))
      = (l.filter q).map Prod.fst := by
  induction l with
  | nil => rfl
  | cons kv rest ih =>
    rw [List.map_cons, List.nodup_cons] at h
    obtain ⟨hk0, hrest⟩ := h
    have hnotmiss : kv.1 ∉ (rest.filter (fun x => !q x)).map Prod.fst := by
      intro hc
      rcases List.mem_map.mp hc with ⟨x, hx, hxeq⟩
      exact hk0 (hxeq ▸ List.mem_map.mpr ⟨x, (List.mem_filter.mp hx).1, rfl⟩)
    by_cases hq : q kv = true
    · have hmiss : (kv :: rest).filter (fun x => !q x) = rest.filter (fun x => !q x) := by
        rw [List.filter_cons]
        simp [hq]
    -- head key is kept on the left and on the right
      have hpred : (!(((rest.filter (fun x => !q x)).map Prod.fst).contains kv.1)) = true := by
        simp only [Bool.not_eq_true']
        simp [List.elem_eq_mem, hnotmiss]
      rw [List.map_cons, hmiss, List.filter_cons, if_pos hpred, ih hrest,
        List.filter_cons, if_pos hq, List.map_cons]
    · have hmiss : (kv :: rest).filter (fun x => !q x) = kv :: rest.filter (fun x => !q x) := by
        rw [List.filter_cons]
        simp [hq]
      have hpred : ¬ ((!((kv.1 :: (rest.filter (fun x => !q x)).map Prod.fst).contains kv.1)) = true) := by
        simp [List.elem_eq_mem]
      have hcong : ∀ k ∈ rest.map Prod.fst,
          (!((kv.1 :: (rest.filter (fun x => !q x)).map Prod.fst).contains k))
            = (!(((rest.filter (fun x => !q x)).map Prod.fst).contains k)) := by
        intro k hkmem
        have hne : ¬ (k = kv.1) := fun he => hk0 (he ▸ hkmem)
        simp [List.elem_eq_mem, hne]
      rw [List.map_cons, hmiss, List.map_cons, List.filter_cons, if_neg hpred,
        List.filter_congr hcong, ih hrest, List.filter_cons, if_neg hq]

theorem get_missing_files_nodup (dest : StorageProvider)
    (expected : List (String × ExpectedEntry)) (od : String)
    (hnodup : (expected.map Prod.fst).Nodup) :
    (get_missing_files dest expected od).Nodup := by
  apply List.Nodup.of_map (fun t => t.full_target_path)
  rw [get_missing_files_targets]
  have hsub : ((expected.filter (fun kv => !dest.fileExists (joinTarget od kv.1))).map Prod.fst).Sublist
      (expected.map Prod.fst) :=
    (List.filter_sublist _).map Prod.fst
  have hkeys : ((expected.filter (fun kv => !dest.fileExists (joinTarget od kv.1))).map Prod.fst).Nodup :=
    hnodup.sublist hsub
  have hinj : Function.Injective (joinTarget od) := fun a b hab => joinTarget_inj od a b hab
  have := hkeys.map hinj
  simpa [List.map_map, Function.comp] using this

/-- C4: for an expected-state map with distinct keys whose entries carry their
own key as `output_path` (as `map_expected_state` builds them), every key whose
resolved target is absent yields exactly one task, carrying the entry and the
target `output_dir.rstrip('/') + '/' + key`; keys whose target exists yield no
task; and the skip set — the expected keys minus the task output paths — is
exactly the set of keys whose target already exists. -/
theorem missing_tasks_exact (dest : StorageProvider) (expected : List (String × ExpectedEntry))
    (output_dir : String)
    (hnodup : (expected.map Prod.fst).Nodup)
    (hout : ∀ kv ∈ expected, kv.2.output_path = kv.1) :
    (∀ kv ∈ expected, dest.fileExists (joinTarget output_dir kv.1) = false →
      (get_missing_files dest expected output_dir).filter
        (fun t => t.full_target_path = joinTarget output_dir kv.1)
        = [{ entry := kv.2, full_target_path := joinTarget output_dir kv.1 }]) ∧
    (∀ kv ∈ expected, dest.fileExists (joinTarget output_dir kv.1) = true →
      ∀ t ∈ get_missing_files dest expected output_dir,
        t.full_target_path ≠ joinTarget output_dir kv.1) ∧
    (expected.map Prod.fst).filter
        (fun k => !(((get_missing_files dest expected output_dir).map
            (fun t => t.entry.output_path)).contains k))
      = (expected.filter (fun kv => dest.fileExists (joinTarget output_dir kv.1))).map Prod.fst := by
  refine ⟨?_, ?_, ?_⟩
  · intro kv hkv he
    apply eq_singleton_of_nodup_mem
    · exact (get_missing_files_nodup dest expected output_dir hnodup).filter _
    · apply List.mem_filter.mpr
      exact ⟨get_missing_files_mem_of dest expected output_dir kv hkv he, by simp⟩
    · intro t ht
      have h1 := List.mem_filter.mp ht
      have h2 : t.full_target_path = joinTarget output_dir kv.1 := by simpa using h1.2
      rcases mem_get_missing_files dest expected output_dir t h1.1 with ⟨kv2, hkv2, _, rfl⟩
      have hk : kv2.1 = kv.1 := joinTarget_inj output_dir _ _ (by simpa using h2)
      have hv : kv2.2 = kv.2 := by
        apply nodup_keys_val_eq expected kv.1 kv2.2 kv.2 hnodup
        · rw [← hk]
          exact hkv2
        · exact hkv
      rw [hk, hv]
  · intro kv hkv he t ht hcontra
    rcases mem_get_missing_files dest expected output_dir t ht with ⟨kv2, hkv2, hmiss, rfl⟩
    have hk : kv2.1 = kv.1 := joinTarget_inj output_dir _ _ (by simpa using hcontra)
    rw [hk, he] at hmiss
    cases hmiss
  · rw [get_missing_files_outputs dest expected output_dir hout]
    exact keys_filter_not_missing expected
      (fun kv => dest.fileExists (joinTarget output_dir kv.1)) hnodup

def c4img : FileItem :=
  { name := "a.jpg", is_dir := false, size := some 10, path := "src/a.jpg" }

def c4src : StorageProvider :=
  { list_files := fun d => if d = "src" then [c4img] else [],
    fileExists := fun p => p = "src" || p = "src/a.jpg" }

def c4style : Style :=
  { name := some "Sketch", prompt_text := "pencil sketch", strength := 3/5, index := 0 }

def c4expected : List (String × ExpectedEntry) := map_expected_state c4src "src" [c4style]

def c4dest : StorageProvider :=
  { list_files := fun _ => [],
    fileExists := fun p => p = "out" || p = "out/original/a.jpg" }

/-- Witness for C4: key `original/a.jpg` exists at the destination and yields no
task; key `sketch/a.jpg` is absent and yields exactly one task. -/
theorem missing_tasks_exact_witness :
    (∀ kv ∈ c4expected, c4dest.fileExists (joinTarget "out" kv.1) = false →
      (get_missing_files c4dest c4expected "out").filter
        (fun t => t.full_target_path = joinTarget "out" kv.1)
        = [{ entry := kv.2, full_target_path := joinTarget "out" kv.1 }]) ∧
    (∀ kv ∈ c4expected, c4dest.fileExists (joinTarget "out" kv.1) = true →
      ∀ t ∈ get_missing_files c4dest c4expected "out",
        t.full_target_path ≠ joinTarget "out" kv.1) ∧
    (c4expected.map Prod.fst).filter
        (fun k => !(((get_missing_files c4dest c4expected "out").map
            (fun t => t.entry.output_path)).contains k))
      = (c4expected.filter (fun kv => c4dest.fileExists (joinTarget "out" kv.1))).map Prod.fst :=
  missing_tasks_exact c4dest c4expected "out" (by decide) (by decide)

/-! ### The task dictionaries are copies (`src/sync.py` lines 90-97)

To express that `get_missing_files` mutates only the fresh copies and never the
entries held by the expected-state map, the entry dictionaries live in an
explicit store (a heap of records addressed by index) and the map holds
references into it: `details.copy()` allocates a new record and the
`full_target_path` assignment updates that new record in place. -/

/-- An entry dictionary as the task loop sees it: the four fields written by
`map_expected_state` plus the `full_target_path` key that only the task copies
acquire (`none` = key absent). -/
structure EntryDict where
  source_item : FileItem
  style : Option Style
  output_path : String
  is_original : Bool
  full_target_path : Option String
deriving DecidableEq, Repr

def dummyEntry : EntryDict :=
  { source_item := { name := "", is_dir := false, size := none, path := "" },
    style := none, output_path := "", is_original := false, full_target_path := none }

/-- Dereference `r` in the store. -/
def storeGet (st : List EntryDict) (r : Nat) : EntryDict := st.getD r dummyEntry

/-- Allocate a fresh record (`details.copy()`), returning the store and the new
reference. -/
def storeAlloc (st : List EntryDict) (e : EntryDict) : List EntryDict × Nat :=
  (st ++ [e], st.length)

/-- In-place update of one record (`details_copy['full_target_path'] = ...`). -/
def storeSet (st : List EntryDict) (r : Nat) (e : EntryDict) : List EntryDict :=
  st.set r e

/-- One iteration of the `get_missing_files` loop over the store. -/
def gmfRefsStep (dest : StorageProvider) (output_dir : String)
    (acc : List EntryDict × List Nat) (kv : String × Nat) : List EntryDict × List Nat :=
  let target_path := joinTarget output_dir kv.1
  if dest.fileExists target_path then acc
  else
    let details := storeGet acc.1 kv.2
    let alloc := storeAlloc acc.1 details
    let st2 := storeSet alloc.1 alloc.2 { details with full_target_path := some target_path }
    (st2, acc.2 ++ [alloc.2])

/-- `src/sync.py` `get_missing_files` with the expected-state map holding
references into the store: for each missing key, copy the entry, set
`full_target_path` on the copy, and append the copy's reference. -/
def get_missing_files_refs (dest : StorageProvider) (st : List EntryDict)
    (expected_refs : List (String × Nat)) (output_dir : String) :
    List EntryDict × List Nat :=
  expected_refs.foldl (gmfRefsStep dest output_dir) (st, [])

theorem getD_append_lt {β : Type} (l : List β) (y d : β) (r : Nat) (h : r < l.length) :
    (l ++ [y]).getD r d = l.getD r d := by
  induction l generalizing r with
  | nil => cases h
  | cons x xs ih =>
    cases r with
    | zero => rfl
    | succ n => exact ih n (by simpa using h)

theorem getD_append_length {β : Type} (l : List β) (y d : β) :
    (l ++ [y]).getD l.length d = y := by
  induction l with
  | nil => rfl
  | cons x xs ih => simpa using ih

theorem set_append_length {β : Type} (l : List β) (e e' : β) :
    (l ++ [e]).set l.length e' = l ++ [e'] := by
  induction l with
  | nil => rfl
  | cons x xs ih => simpa using ih

theorem get_missing_files_refs_inv (dest : StorageProvider) (od : String) :
    ∀ (exp : List (String × Nat)) (st0 : List EntryDict) (rs0 : List Nat),
      (∀ kv ∈ exp, kv.2 < st0.length) →
      st0.length ≤ (exp.foldl (gmfRefsStep dest od) (st0, rs0)).1.length ∧
      (∀ r, r < st0.length →
        storeGet (exp.foldl (gmfRefsStep dest od) (st0, rs0)).1 r = storeGet st0 r) ∧
      ∃ ts, (exp.foldl (gmfRefsStep dest od) (st0, rs0)).2 = rs0 ++ ts ∧
        ∀ r ∈ ts, ∃ kv ∈ exp, dest.fileExists (joinTarget od kv.1) = false ∧
          storeGet (exp.foldl (gmfRefsStep dest od) (st0, rs0)).1 r
            = { storeGet st0 kv.2 with full_target_path := some (joinTarget od kv.1) } := by
  intro exp
  induction exp with
  | nil =>
    intro st0 rs0 hv
    exact ⟨le_refl _, fun r hr => rfl, [], by simp, by simp⟩
  | cons kv rest ih =>
    intro st0 rs0 hv
    simp only [List.foldl_cons]
    by_cases he : dest.fileExists (joinTarget od kv.1) = true
    · have hstep : gmfRefsStep dest od (st0, rs0) kv = (st0, rs0) := by
        unfold gmfRefsStep
        rw [if_pos he]
      rw [hstep]
      obtain ⟨h1, h2, ts, h3, h4⟩ := ih st0 rs0 (fun x hx => hv x (List.mem_cons_of_mem _ hx))
      refine ⟨h1, h2, ts, h3, fun r hr => ?_⟩
      obtain ⟨kv', hkv', hmiss, hget⟩ := h4 r hr
      exact ⟨kv', List.mem_cons_of_mem _ hkv', hmiss, hget⟩
    · have hkvlt := hv kv (List.mem_cons_self _ _)
      have hstep : gmfRefsStep dest od (st0, rs0) kv
          = (st0 ++ [{ storeGet st0 kv.2 with full_target_path := some (joinTarget od kv.1) }],
             rs0 ++ [st0.length]) := by
        unfold gmfRefsStep storeAlloc storeSet
        rw [if_neg he]
        simp only
        rw [set_append_length]
      rw [hstep]
      obtain ⟨h1, h2, ts, h3, h4⟩ :=
        ih (st0 ++ [{ storeGet st0 kv.2 with full_target_path := some (joinTarget od kv.1) }])
          (rs0 ++ [st0.length])
          (fun x hx => lt_of_lt_of_le (hv x (List.mem_cons_of_mem _ hx)) (by simp))
      refine ⟨le_trans (by simp) h1, ?_, st0.length :: ts, ?_, ?_⟩
      · intro r hr
        rw [h2 r (by simp [Nat.lt_succ_of_lt hr])]
        exact getD_append_lt st0 _ dummyEntry r hr
      · rw [h3, List.append_assoc]
        rfl
      · intro r hr
        rcases List.mem_cons.mp hr with rfl | hr'
        · refine ⟨kv, List.mem_cons_self _ _, by simpa using he, ?_⟩
          rw [h2 st0.length (by simp)]
          exact getD_append_length st0 _ dummyEntry
        · obtain ⟨kv', hkv', hmiss, hget⟩ := h4 r hr'
          refine ⟨kv', List.mem_cons_of_mem _ hkv', hmiss, ?_⟩
          rw [hget]
          have hlt := hv kv' (List.mem_cons_of_mem _ hkv')
          rw [show storeGet (st0 ++
              [{ storeGet st0 kv.2 with full_target_path := some (joinTarget od kv.1) }]) kv'.2
              = storeGet st0 kv'.2 from getD_append_lt st0 _ dummyEntry kv'.2 hlt]

/-- C9: `get_missing_files` leaves the expected-state map unchanged — after the
call every reference held by the map still dereferences to exactly the entry it
held before (in particular none of them acquires a `full_target_path` field),
and every emitted task is a fresh copy of the corresponding entry extended with
`full_target_path = output_dir.rstrip('/') + '/' + key`. -/
theorem get_missing_files_preserves_expected (dest : StorageProvider)
    (st : List EntryDict) (expected_refs : List (String × Nat)) (output_dir : String)
    (hv : ∀ kv ∈ expected_refs, kv.2 < st.length) :
    (∀ kv ∈ expected_refs,
      storeGet (get_missing_files_refs dest st expected_refs output_dir).1 kv.2
        = storeGet st kv.2) ∧
    (∀ kv ∈ expected_refs, (storeGet st kv.2).full_target_path = none →
      (storeGet (get_missing_files_refs dest st expected_refs output_dir).1 kv.2).full_target_path
        = none) ∧
    (∀ r ∈ (get_missing_files_refs dest st expected_refs output_dir).2,
      ∃ kv ∈ expected_refs, dest.fileExists (joinTarget output_dir kv.1) = false ∧
        storeGet (get_missing_files_refs dest st expected_refs output_dir).1 r
          = { storeGet st kv.2 with full_target_path := some (joinTarget output_dir kv.1) }) := by
  obtain ⟨h1, h2, ts, h3, h4⟩ :=
    get_missing_files_refs_inv dest output_dir expected_refs st [] hv
  refine ⟨?_, ?_, ?_⟩
  · intro kv hkv
    exact h2 kv.2 (hv kv hkv)
  · intro kv hkv hnone
    rw [show get_missing_files_refs dest st expected_refs output_dir
        = expected_refs.foldl (gmfRefsStep dest output_dir) (st, []) from rfl]
    rw [h2 kv.2 (hv kv hkv)]
    exact hnone
  · intro r hr
    rw [show get_missing_files_refs dest st expected_refs output_dir
        = expected_refs.foldl (gmfRefsStep dest output_dir) (st, []) from rfl] at hr ⊢
    rw [h3] at hr
    exact h4 r (by simpa using hr)

def c9entry : EntryDict :=
  { source_item := { name := "a.jpg", is_dir := false, size := some 10, path := "src/a.jpg" },
    style := none, output_path := "original/a.jpg", is_original := true,
    full_target_path := none }

def c9store : List EntryDict := [c9entry]

def c9refs : List (String × Nat) := [("original/a.jpg", 0)]

def c9dest : StorageProvider :=
  { list_files := fun _ => [], fileExists := fun p => p = "out" }

/-- Witness for C9: one expected entry whose target is missing — the map's
reference still holds the original record, without a `full_target_path`. -/
theorem get_missing_files_preserves_expected_witness :
    (∀ kv ∈ c9refs,
      storeGet (get_missing_files_refs c9dest c9store c9refs "out").1 kv.2
        = storeGet c9store kv.2) ∧
    (∀ kv ∈ c9refs, (storeGet c9store kv.2).full_target_path = none →
      (storeGet (get_missing_files_refs c9dest c9store c9refs "out").1 kv.2).full_target_path
        = none) ∧
    (∀ r ∈ (get_missing_files_refs c9dest c9store c9refs "out").2,
      ∃ kv ∈ c9refs, c9dest.fileExists (joinTarget "out" kv.1) = false ∧
        storeGet (get_missing_files_refs c9dest c9store c9refs "out").1 r
          = { storeGet c9store kv.2 with full_target_path := some (joinTarget "out" kv.1) }) :=
  get_missing_files_preserves_expected c9dest c9store c9refs "out" (by decide)

/-! ### Task executor (`src/main.py` lines 170-248, `src/reporting.py`) -/

inductive StepStatus where
  | Success : StepStatus
  | Failed : StepStatus
deriving DecidableEq, Repr

/-- `src/reporting.py` `StepRecord`; wall-clock values are not modelled, the
time fields record what `add_step` passes them. -/
structure StepRecord where
  step_name : String
  status : StepStatus
  start_time : ℚ
  end_time : ℚ
  details : String
  error : Option String
deriving DecidableEq, Repr

/-- `RunContext.add_step`: `status = "Failed" if error else "Success"` — the
status is Failed exactly when a truthy (non-empty) error string is supplied. -/
def add_step (name : String) (start_time end_time : ℚ) (details : String)
    (error : Option String) : StepRecord :=
  { step_name := name,
    status := match error with
      | none => StepStatus.Success
      | some e => if e.data.isEmpty then StepStatus.Success else StepStatus.Failed,
    start_time := start_time, end_time := end_time,
    details := details, error := error }

/-- `src/clients/base.py` `ImageGenerationResult`. -/
structure ImageGenerationResult where
  data : Option String
  latency : ℚ
  request_info : String
  response_info : String
deriving DecidableEq, Repr

/-- Python truthiness of an optional bytes value: `None` and `b""` are falsy. -/
def pyTruthyBytes (d : Option String) : Bool :=
  match d with
  | none => false
  | some b => !b.data.isEmpty

/-- The effectful collaborators of the `src/main.py` task loop: storage reads
and writes and the generator call, each able to raise. -/
structure ExecEnv where
  read_file : String → Except String String
  write_file : String → String → Except String Unit
  process_image : String → String → ℚ → Except String ImageGenerationResult

/-- The counters of the `src/main.py` task loop. -/
structure ExecCounts where
  copy_count : Nat
  success_count : Nat
  fail_count : Nat
deriving DecidableEq, Repr

def czero : ExecCounts := { copy_count := 0, success_count := 0, fail_count := 0 }

def cadd (a b : ExecCounts) : ExecCounts :=
  { copy_count := a.copy_count + b.copy_count,
    success_count := a.success_count + b.success_count,
    fail_count := a.fail_count + b.fail_count }

/-- One iteration of the `src/main.py` task loop (lines 171-245): the step
records this task appends to the run context, and its counter increments.
Copy tasks (lines 178-189) read and write inside a `try`, count, and append no
record.  Styled tasks log one record after the generation call returns or
raises; a write failure after a successful generation logs a second record.
A styled task whose style is `None` or lacks `'name'` would raise at line 194,
before the per-task `try`, aborting the whole run; that branch is modelled as a
no-op and excluded by the wellformedness hypotheses of the theorems. -/
def execTask (env : ExecEnv) (task : TaskRec) : List StepRecord × ExecCounts :=
  if task.entry.is_original then
    match env.read_file task.entry.source_item.path with
    | Except.ok input_data =>
      match env.write_file task.full_target_path input_data with
      | Except.ok _ => ([], { copy_count := 1, success_count := 0, fail_count := 0 })
      | Except.error _ => ([], { copy_count := 0, success_count := 0, fail_count := 1 })
    | Except.error _ => ([], { copy_count := 0, success_count := 0, fail_count := 1 })
  else
    match task.entry.style with
    | none => ([], czero)
    | some style =>
      match style.name with
      | none => ([], czero)
      | some nm =>
        let step_name := task.entry.source_item.name ++ " -> " ++ nm
        match env.read_file task.entry.source_item.path with
        | Except.error e =>
          ([add_step step_name 0 0 "Exception occurred" (some e)],
           { copy_count := 0, success_count := 0, fail_count := 1 })
        | Except.ok input_data =>
          match env.process_image input_data style.prompt_text style.strength with
          | Except.error e =>
            ([add_step step_name 0 0 "Exception occurred" (some e)],
             { copy_count := 0, success_count := 0, fail_count := 1 })
          | Except.ok result =>
            let logged := add_step step_name 0 0
              ("Request:\n" ++ result.request_info ++ "\n\nResponse:\n" ++ result.response_info)
              (if pyTruthyBytes result.data then none else some "API returned no data")
            match result.data with
            | some bytes =>
              if bytes.data.isEmpty then
                ([logged], { copy_count := 0, success_count := 0, fail_count := 1 })
              else
                match env.write_file task.full_target_path bytes with
                | Except.ok _ =>
                  ([logged], { copy_count := 0, success_count := 1, fail_count := 0 })
                | Except.error e =>
                  ([logged, add_step step_name 0 0 "Exception occurred" (some e)],
                   { copy_count := 0, success_count := 0, fail_count := 1 })
            | none => ([logged], { copy_count := 0, success_count := 0, fail_count := 1 })

/-- The `src/main.py` task loop: run-context records accumulate by appending,
counters add up. -/
def runTasks (env : ExecEnv) (tasks : List TaskRec) : List StepRecord × ExecCounts :=
  tasks.foldl (fun acc t => (acc.1 ++ (execTask env t).1, cadd acc.2 (execTask env t).2))
    ([], czero)

theorem cadd_zero_left (c : ExecCounts) : cadd czero c = c := by
  cases c
  simp [cadd, czero]

theorem cadd_zero_right (c : ExecCounts) : cadd c czero = c := by
  cases c
  simp [cadd, czero]

theorem cadd_assoc (a b c : ExecCounts) : cadd (cadd a b) c = cadd a (cadd b c) := by
  simp [cadd, Nat.add_assoc]

theorem runTasks_shift (env : ExecEnv) (tasks : List TaskRec) (s : List StepRecord)
    (c : ExecCounts) :
    tasks.foldl (fun acc t => (acc.1 ++ (execTask env t).1, cadd acc.2 (execTask env t).2)) (s, c)
      = (s ++ (runTasks env tasks).1, cadd c (runTasks env tasks).2) := by
  induction tasks generalizing s c with
  | nil => simp [runTasks, cadd_zero_right]
  | cons t ts ih =>
    show (List.foldl _ _ ts) = _
    rw [ih]
    unfold runTasks
    simp only [List.foldl_cons]
    rw [ih ([] ++ (execTask env t).1) (cadd czero (execTask env t).2)]
    simp only [List.nil_append, List.append_assoc, cadd_assoc, cadd_zero_left, Prod.mk.injEq]
    exact ⟨rfl, rfl⟩

theorem runTasks_append (env : ExecEnv) (a b : List TaskRec) :
    runTasks env (a ++ b)
      = ((runTasks env a).1 ++ (runTasks env b).1,
         cadd (runTasks env a).2 (runTasks env b).2) := by
  unfold runTasks
  rw [List.foldl_append]
  exact runTasks_shift env b _ _

theorem runTasks_cons (env : ExecEnv) (t : TaskRec) (ts : List TaskRec) :
    runTasks env (t :: ts)
      = ((execTask env t).1 ++ (runTasks env ts).1,
         cadd (execTask env t).2 (runTasks env ts).2) := by
  unfold runTasks
  simp only [List.foldl_cons]
  rw [runTasks_shift env ts ([] ++ (execTask env t).1) (cadd czero (execTask env t).2)]
  simp only [List.nil_append, cadd_zero_left, Prod.mk.injEq]
  exact ⟨rfl, rfl⟩

theorem execTask_copy_ok (env : ExecEnv) (rf : String → String)
    (hr : ∀ p, env.read_file p = Except.ok (rf p))
    (hw : ∀ p d, env.write_file p d = Except.ok ())
    (t : TaskRec) (ho : t.entry.is_original = true) :
    execTask env t = ([], { copy_count := 1, success_count := 0, fail_count := 0 }) := by
  simp [execTask, ho, hr, hw]

theorem execTask_styled_ok (env : ExecEnv) (rf : String → String)
    (hr : ∀ p, env.read_file p = Except.ok (rf p))
    (hw : ∀ p d, env.write_file p d = Except.ok ())
    (t : TaskRec) (s : Style) (nm : String) (r : ImageGenerationResult)
    (ho : t.entry.is_original = false) (hs : t.entry.style = some s)
    (hnm : s.name = some nm)
    (hgen : env.process_image (rf t.entry.source_item.path) s.prompt_text s.strength
      = Except.ok r)
    (htruthy : pyTruthyBytes r.data = true) :
    (execTask env t).2 = { copy_count := 0, success_count := 1, fail_count := 0 } ∧
    (execTask env t).1.length = 1 ∧
    ∀ st ∈ (execTask env t).1, st.status = StepStatus.Success := by
  cases hd : r.data with
  | none =>
    rw [hd] at htruthy
    simp [pyTruthyBytes] at htruthy
  | some bytes =>
    have hb : bytes.data.isEmpty = false := by
      rw [hd] at htruthy
      simpa [pyTruthyBytes] using htruthy
    have hexec : execTask env t
        = ([add_step (t.entry.source_item.name ++ " -> " ++ nm) 0 0
            ("Request:\n" ++ r.request_info ++ "\n\nResponse:\n" ++ r.response_info) none],
           { copy_count := 0, success_count := 1, fail_count := 0 }) := by
      simp [execTask, ho, hs, hnm, hr, hgen, hd, hb, hw, pyTruthyBytes]
    rw [hexec]
    refine ⟨rfl, rfl, fun st hst => ?_⟩
    rw [List.mem_singleton.mp hst]
    rfl

theorem execTask_styled_fail (env : ExecEnv) (rf : String → String)
    (hr : ∀ p, env.read_file p = Except.ok (rf p))
    (t : TaskRec) (s : Style) (nm : String)
    (ho : t.entry.is_original = false) (hs : t.entry.style = some s)
    (hnm : s.name = some nm)
    (hfail : (∃ e, e.data.isEmpty = false ∧
        env.process_image (rf t.entry.source_item.path) s.prompt_text s.strength
          = Except.error e) ∨
      (∃ r, env.process_image (rf t.entry.source_item.path) s.prompt_text s.strength
          = Except.ok r ∧ pyTruthyBytes r.data = false)) :
    (execTask env t).2 = { copy_count := 0, success_count := 0, fail_count := 1 } ∧
    (execTask env t).1.length = 1 ∧
    ∀ st ∈ (execTask env t).1, st.status = StepStatus.Failed := by
  rcases hfail with ⟨e, he, hgen⟩ | ⟨r, hgen, hfalsy⟩
  · have hexec : execTask env t
        = ([add_step (t.entry.source_item.name ++ " -> " ++ nm) 0 0
            "Exception occurred" (some e)],
           { copy_count := 0, success_count := 0, fail_count := 1 }) := by
      simp [execTask, ho, hs, hnm, hr, hgen]
    rw [hexec]
    refine ⟨rfl, rfl, fun st hst => ?_⟩
    rw [List.mem_singleton.mp hst]
    simp [add_step, he]
  · cases hd : r.data with
    | none =>
      have hexec : execTask env t
          = ([add_step (t.entry.source_item.name ++ " -> " ++ nm) 0 0
              ("Request:\n" ++ r.request_info ++ "\n\nResponse:\n" ++ r.response_info)
              (some "API returned no data")],
             { copy_count := 0, success_count := 0, fail_count := 1 }) := by
        simp [execTask, ho, hs, hnm, hr, hgen, hd, pyTruthyBytes]
      rw [hexec]
      refine ⟨rfl, rfl, fun st hst => ?_⟩
      rw [List.mem_singleton.mp hst]
      rfl
    | some bytes =>
      have hb : bytes.data.isEmpty = true := by
        rw [hd] at hfalsy
        simpa [pyTruthyBytes] using hfalsy
      have hexec : execTask env t
          = ([add_step (t.entry.source_item.name ++ " -> " ++ nm) 0 0
              ("Request:\n" ++ r.request_info ++ "\n\nResponse:\n" ++ r.response_info)
              (some "API returned no data")],
             { copy_count := 0, success_count := 0, fail_count := 1 }) := by
        simp [execTask, ho, hs, hnm, hr, hgen, hd, hb, pyTruthyBytes]
      rw [hexec]
      refine ⟨rfl, rfl, fun st hst => ?_⟩
      rw [List.mem_singleton.mp hst]
      rfl

theorem execTask_steps_length (env : ExecEnv) (t : TaskRec)
    (hwf : t.entry.is_original = false → ∃ s, t.entry.style = some s ∧ ∃ nm, s.name = some nm)
    (hw : ∀ p d, env.write_file p d = Except.ok ()) :
    (execTask env t).1.length = if t.entry.is_original then 0 else 1 := by
  by_cases ho : t.entry.is_original = true
  · rw [if_pos ho]
    cases hre : env.read_file t.entry.source_item.path with
    | ok d => simp [execTask, ho, hre, hw]
    | error e => simp [execTask, ho, hre]
  · have ho' : t.entry.is_original = false := by simpa using ho
    obtain ⟨s, hs, nm, hnm⟩ := hwf ho'
    rw [if_neg ho]
    cases hre : env.read_file t.entry.source_item.path with
    | error e => simp [execTask, ho', hs, hnm, hre]
    | ok d =>
      cases hp : env.process_image d s.prompt_text s.strength with
      | error e => simp [execTask, ho', hs, hnm, hre, hp]
      | ok r =>
        cases hd : r.data with
        | none => simp [execTask, ho', hs, hnm, hre, hp, hd, pyTruthyBytes]
        | some bytes =>
          by_cases hb : bytes.data.isEmpty = true
          · simp [execTask, ho', hs, hnm, hre, hp, hd, hb, pyTruthyBytes]
          · have hb' : bytes.data.isEmpty = false := by simpa using hb
            simp [execTask, ho', hs, hnm, hre, hp, hd, hb', hw, pyTruthyBytes]

/-- C6 (amended): when destination writes do not raise and every styled task
carries a named style, the executor appends exactly one StepRecord per
styled-generation task — whether the generation succeeds or fails — and no
StepRecord at all for copy-original tasks. -/
theorem step_records_styled_only (env : ExecEnv) (tasks : List TaskRec)
    (hwf : ∀ t ∈ tasks, t.entry.is_original = false →
      ∃ s, t.entry.style = some s ∧ ∃ nm, s.name = some nm)
    (hw : ∀ p d, env.write_file p d = Except.ok ()) :
    (runTasks env tasks).1.length
      = (tasks.filter (fun t => !t.entry.is_original)).length := by
  induction tasks with
  | nil => rfl
  | cons t ts ih =>
    rw [runTasks_cons, List.length_append, List.filter_cons]
    have hstep := execTask_steps_length env t (hwf t (List.mem_cons_self _ _)) hw
    have iht := ih (fun x hx h => hwf x (List.mem_cons_of_mem _ hx) h)
    by_cases ho : t.entry.is_original = true
    · rw [hstep, if_pos ho, iht]
      simp [ho]
    · have ho' : t.entry.is_original = false := by simpa using ho
      rw [hstep, if_neg ho, iht]
      simp [ho']
      omega

def c6img : FileItem :=
  { name := "a.jpg", is_dir := false, size := some 10, path := "src/a.jpg" }

def c6env : ExecEnv :=
  { read_file := fun _ => Except.ok "data",
    write_file := fun _ _ => Except.ok (),
    process_image := fun _ _ _ =>
      Except.ok { data := some "img", latency := 0, request_info := "req", response_info := "resp" } }

def c6task : TaskRec :=
  { entry := { source_item := c6img, style := none, output_path := "original/a.jpg",
               is_original := true },
    full_target_path := "out/original/a.jpg" }

def c6style : Style := { name := some "Sketch", prompt_text := "p", strength := 1/2, index := 0 }

def c6styledTask : TaskRec :=
  { entry := { source_item := c6img, style := some c6style, output_path := "sketch/a.jpg",
               is_original := false },
    full_target_path := "out/sketch/a.jpg" }

/-- C6 counterexample: a copy-original task that reads and writes successfully
is executed (the copy counter increments) but appends no StepRecord at all —
the copy branch of `main` never calls `add_step` — refuting "exactly one
StepRecord per executed task". -/
theorem copy_task_no_step_counterexample :
    c6task.entry.is_original = true ∧
    (runTasks c6env [c6task]).2.copy_count = 1 ∧
    (runTasks c6env [c6task]).1.length = 0 := by
  refine ⟨rfl, ?_, ?_⟩ <;> rfl

/-- Witness for the amended C6: one copy task and one styled task produce
exactly one StepRecord. -/
theorem step_records_styled_only_witness :
    (runTasks c6env [c6task, c6styledTask]).1.length
      = (List.filter (fun t => !t.entry.is_original) [c6task, c6styledTask]).length :=
  step_records_styled_only c6env [c6task, c6styledTask]
    (by
      intro t ht h
      rcases List.mem_cons.mp ht with rfl | ht'
      · simp [c6task] at h
      · rcases List.mem_cons.mp ht' with rfl | h''
        · exact ⟨c6style, rfl, "Sketch", rfl⟩
        · cases h'')
    (fun p d => rfl)

/-! ### Serverless task loop (`src/function_app.py` lines 165-207) -/

/-- `src/function_app.py` `GeneratorResult`. -/
structure GeneratorResult where
  data : Option String
  request_info : String
  response_info : String
deriving DecidableEq, Repr

/-- The effectful collaborators of the `src/function_app.py` task loop;
`process_image_azure` catches its own exceptions and always returns a
`GeneratorResult`, so the generator is a total function of the uploaded bytes,
the filename, the prompt and the strength. -/
structure FuncEnv where
  read_file : String → Except String String
  write_file : String → String → Except String Unit
  generate : String → String → String → ℚ → GeneratorResult

/-- One iteration of the `src/function_app.py` task loop (lines 175-198): the
additions to `results["processed"]` and `results["failed"]`.  A styled task
whose style is `None` raises inside the per-task `try` when
`style['prompt_text']` is read and lands in `failed`. -/
def funcTask (env : FuncEnv) (t : TaskRec) : List String × List String :=
  match env.read_file t.entry.source_item.path with
  | Except.error _ => ([], [t.entry.output_path])
  | Except.ok input_data =>
    if t.entry.is_original then
      match env.write_file t.full_target_path input_data with
      | Except.ok _ => (["original/" ++ t.entry.source_item.name], [])
      | Except.error _ => ([], [t.entry.output_path])
    else
      match t.entry.style with
      | none => ([], [t.entry.output_path])
      | some style =>
        let result := env.generate input_data t.entry.source_item.name
          style.prompt_text style.strength
        match result.data with
        | some d =>
          if d.data.isEmpty then ([], [t.entry.output_path])
          else
            match env.write_file t.full_target_path d with
            | Except.ok _ => ([t.entry.output_path], [])
            | Except.error _ => ([], [t.entry.output_path])
        | none => ([], [t.entry.output_path])

structure FuncResults where
  status : String
  processed : List String
  failed : List String
  skipped : List String
deriving DecidableEq, Repr

/-- The accumulated `processed`/`failed` lists of the loop. -/
def funcFold (env : FuncEnv) (tasks : List TaskRec) : List String × List String :=
  tasks.foldl (fun acc t => (acc.1 ++ (funcTask env t).1, acc.2 ++ (funcTask env t).2)) ([], [])

/-- The `src/function_app.py` run over an already-computed task list: per-task
failures are caught inside the loop, so the outer handler that would set
`status = "failed"` is unreachable once the task list exists and the status
stays `"completed"`; `skipped` is computed as on line 200. -/
def funcRun (env : FuncEnv) (expected : List (String × ExpectedEntry))
    (tasks : List TaskRec) : FuncResults :=
  { status := "completed",
    processed := (funcFold env tasks).1,
    failed := (funcFold env tasks).2,
    skipped := (expected.map Prod.fst).filter
      (fun k => !((tasks.map (fun t => t.entry.output_path)).contains k)) }

theorem funcFold_shift (env : FuncEnv) (tasks : List TaskRec) (p f : List String) :
    tasks.foldl (fun acc t => (acc.1 ++ (funcTask env t).1, acc.2 ++ (funcTask env t).2)) (p, f)
      = (p ++ (funcFold env tasks).1, f ++ (funcFold env tasks).2) := by
  induction tasks generalizing p f with
  | nil => simp [funcFold]
  | cons t ts ih =>
    show (List.foldl _ _ ts) = _
    rw [ih]
    unfold funcFold
    simp only [List.foldl_cons]
    rw [ih ([] ++ (funcTask env t).1) ([] ++ (funcTask env t).2)]
    simp only [List.nil_append, List.append_assoc, Prod.mk.injEq]
    exact ⟨rfl, rfl⟩

theorem funcFold_cons (env : FuncEnv) (t : TaskRec) (ts : List TaskRec) :
    funcFold env (t :: ts)
      = ((funcTask env t).1 ++ (funcFold env ts).1,
         (funcTask env t).2 ++ (funcFold env ts).2) := by
  unfold funcFold
  simp only [List.foldl_cons]
  rw [funcFold_shift env ts ([] ++ (funcTask env t).1) ([] ++ (funcTask env t).2)]
  simp only [List.nil_append]
  rfl

theorem funcTask_copy_ok (env : FuncEnv) (rf : String → String)
    (hfr : ∀ p, env.read_file p = Except.ok (rf p))
    (hfw : ∀ p d, env.write_file p d = Except.ok ())
    (t : TaskRec) (ho : t.entry.is_original = true) :
    funcTask env t = (["original/" ++ t.entry.source_item.name], []) := by
  simp [funcTask, ho, hfr, hfw]

theorem funcTask_styled_ok (env : FuncEnv) (rf : String → String)
    (hfr : ∀ p, env.read_file p = Except.ok (rf p))
    (hfw : ∀ p d, env.write_file p d = Except.ok ())
    (t : TaskRec) (s : Style)
    (ho : t.entry.is_original = false) (hs : t.entry.style = some s)
    (htr : pyTruthyBytes ((env.generate (rf t.entry.source_item.path)
        t.entry.source_item.name s.prompt_text s.strength).data) = true) :
    funcTask env t = ([t.entry.output_path], []) := by
  cases hd : (env.generate (rf t.entry.source_item.path)
      t.entry.source_item.name s.prompt_text s.strength).data with
  | none =>
    rw [hd] at htr
    simp [pyTruthyBytes] at htr
  | some d =>
    have hb : d.data.isEmpty = false := by
      rw [hd] at htr
      simpa [pyTruthyBytes] using htr
    simp [funcTask, ho, hs, hfr, hd, hb, hfw]

theorem funcTask_styled_fail (env : FuncEnv) (rf : String → String)
    (hfr : ∀ p, env.read_file p = Except.ok (rf p))
    (t : TaskRec) (s : Style)
    (ho : t.entry.is_original = false) (hs : t.entry.style = some s)
    (hfalsy : pyTruthyBytes ((env.generate (rf t.entry.source_item.path)
        t.entry.source_item.name s.prompt_text s.strength).data) = false) :
    funcTask env t = ([], [t.entry.output_path]) := by
  cases hd : (env.generate (rf t.entry.source_item.path)
      t.entry.source_item.name s.prompt_text s.strength).data with
  | none => simp [funcTask, ho, hs, hfr, hd]
  | some d =>
    have hb : d.data.isEmpty = true := by
      rw [hd] at hfalsy
      simpa [pyTruthyBytes] using hfalsy
    simp [funcTask, ho, hs, hfr, hd, hb]

theorem funcFold_all_good (env : FuncEnv) (rf : String → String)
    (hfr : ∀ p, env.read_file p = Except.ok (rf p))
    (hfw : ∀ p d, env.write_file p d = Except.ok ())
    (ts : List TaskRec)
    (hok : ∀ t ∈ ts, t.entry.is_original = false →
      ∃ s, t.entry.style = some s ∧
        pyTruthyBytes ((env.generate (rf t.entry.source_item.path)
          t.entry.source_item.name s.prompt_text s.strength).data) = true) :
    (funcFold env ts).2 = [] := by
  induction ts with
  | nil => rfl
  | cons t ts ih =>
    rw [funcFold_cons]
    have iht := ih (fun x hx h => hok x (List.mem_cons_of_mem _ hx) h)
    by_cases ho : t.entry.is_original = true
    · rw [funcTask_copy_ok env rf hfr hfw t ho, iht]
      rfl
    · have ho' : t.entry.is_original = false := by simpa using ho
      obtain ⟨s, hs, htr⟩ := hok t (List.mem_cons_self _ _) ho'
      rw [funcTask_styled_ok env rf hfr hfw t s ho' hs htr, iht]
      rfl

theorem runTasks_all_good (env : ExecEnv) (rf : String → String)
    (hr : ∀ p, env.read_file p = Except.ok (rf p))
    (hw : ∀ p d, env.write_file p d = Except.ok ())
    (ts : List TaskRec)
    (hok : ∀ t ∈ ts, t.entry.is_original = false →
      ∃ s nm r, t.entry.style = some s ∧ s.name = some nm ∧
        env.process_image (rf t.entry.source_item.path) s.prompt_text s.strength
          = Except.ok r ∧ pyTruthyBytes r.data = true) :
    (runTasks env ts).2.copy_count + (runTasks env ts).2.success_count = ts.length ∧
    (runTasks env ts).2.fail_count = 0 ∧
    (runTasks env ts).1.countP (fun st => st.status = StepStatus.Failed) = 0 := by
  induction ts with
  | nil => exact ⟨rfl, rfl, rfl⟩
  | cons t ts ih =>
    obtain ⟨h1, h2, h3⟩ := ih (fun x hx h => hok x (List.mem_cons_of_mem _ hx) h)
    rw [runTasks_cons]
    by_cases ho : t.entry.is_original = true
    · rw [execTask_copy_ok env rf hr hw t ho]
      refine ⟨?_, ?_, ?_⟩
      · simp only [cadd, List.length_cons]
        omega
      · simp only [cadd]
        omega
      · simpa using h3
    · have ho' : t.entry.is_original = false := by simpa using ho
      obtain ⟨s, nm, r, hs, hnm, hgen, htr⟩ := hok t (List.mem_cons_self _ _) ho'
      obtain ⟨e2, elen, estatus⟩ := execTask_styled_ok env rf hr hw t s nm r ho' hs hnm hgen htr
      rw [e2]
      refine ⟨?_, ?_, ?_⟩
      · simp only [cadd, List.length_cons]
        omega
      · simp only [cadd]
        omega
      · rw [List.countP_append, h3]
        have hz : (execTask env t).1.countP (fun st => st.status = StepStatus.Failed) = 0 := by
          rw [List.countP_eq_zero]
          intro st hst
          rw [estatus st hst]
          simp
        omega

/-- C7: if the generation collaborator fails for exactly one styled task —
raising with a non-empty message or returning no data — and succeeds for every
other task, the executor still processes every task (its counters sum to the
number of tasks) with exactly one failure and exactly one Failed StepRecord,
and the serverless run returns status `"completed"` with exactly that task's
output path in its `failed` list. -/
theorem single_failure_isolation
    (env : ExecEnv) (fenv : FuncEnv) (expected : List (String × ExpectedEntry))
    (pre post : List TaskRec) (t0 : TaskRec) (s0 : Style) (nm0 : String)
    (rf : String → String)
    (hr : ∀ p, env.read_file p = Except.ok (rf p))
    (hw : ∀ p d, env.write_file p d = Except.ok ())
    (hfr : ∀ p, fenv.read_file p = Except.ok (rf p))
    (hfw : ∀ p d, fenv.write_file p d = Except.ok ())
    (ht0 : t0.entry.is_original = false) (hs0 : t0.entry.style = some s0)
    (hnm0 : s0.name = some nm0)
    (hfail : (∃ e, e.data.isEmpty = false ∧
        env.process_image (rf t0.entry.source_item.path) s0.prompt_text s0.strength
          = Except.error e) ∨
      (∃ r, env.process_image (rf t0.entry.source_item.path) s0.prompt_text s0.strength
          = Except.ok r ∧ pyTruthyBytes r.data = false))
    (hffail : pyTruthyBytes ((fenv.generate (rf t0.entry.source_item.path)
        t0.entry.source_item.name s0.prompt_text s0.strength).data) = false)
    (hok : ∀ t ∈ pre ++ post, t.entry.is_original = false →
      ∃ s nm r, t.entry.style = some s ∧ s.name = some nm ∧
        env.process_image (rf t.entry.source_item.path) s.prompt_text s.strength
          = Except.ok r ∧ pyTruthyBytes r.data = true)
    (hfok : ∀ t ∈ pre ++ post, t.entry.is_original = false → ∀ s, t.entry.style = some s →
      pyTruthyBytes ((fenv.generate (rf t.entry.source_item.path)
        t.entry.source_item.name s.prompt_text s.strength).data) = true) :
    ((runTasks env (pre ++ t0 :: post)).2.copy_count
        + (runTasks env (pre ++ t0 :: post)).2.success_count
        + (runTasks env (pre ++ t0 :: post)).2.fail_count
      = (pre ++ t0 :: post).length) ∧
    (runTasks env (pre ++ t0 :: post)).2.fail_count = 1 ∧
    (runTasks env (pre ++ t0 :: post)).1.countP
        (fun st => st.status = StepStatus.Failed) = 1 ∧
    (funcRun fenv expected (pre ++ t0 :: post)).status = "completed" ∧
    (funcRun fenv expected (pre ++ t0 :: post)).failed = [t0.entry.output_path] := by
  have hokPre : ∀ t ∈ pre, t.entry.is_original = false →
      ∃ s nm r, t.entry.style = some s ∧ s.name = some nm ∧
        env.process_image (rf t.entry.source_item.path) s.prompt_text s.strength
          = Except.ok r ∧ pyTruthyBytes r.data = true :=
    fun t ht h => hok t (List.mem_append_left _ ht) h
  have hokPost : ∀ t ∈ post, t.entry.is_original = false →
      ∃ s nm r, t.entry.style = some s ∧ s.name = some nm ∧
        env.process_image (rf t.entry.source_item.path) s.prompt_text s.strength
          = Except.ok r ∧ pyTruthyBytes r.data = true :=
    fun t ht h => hok t (List.mem_append_right _ ht) h
  obtain ⟨p1, p2, p3⟩ := runTasks_all_good env rf hr hw pre hokPre
  obtain ⟨q1, q2, q3⟩ := runTasks_all_good env rf hr hw post hokPost
  obtain ⟨f2, flen, fstatus⟩ := execTask_styled_fail env rf hr t0 s0 nm0 ht0 hs0 hnm0 hfail
  have hsplit : runTasks env (pre ++ t0 :: post)
      = ((runTasks env pre).1 ++ ((execTask env t0).1 ++ (runTasks env post).1),
         cadd (runTasks env pre).2 (cadd (execTask env t0).2 (runTasks env post).2)) := by
    rw [runTasks_append env pre (t0 :: post), runTasks_cons env t0 post]
  refine ⟨?_, ?_, ?_, rfl, ?_⟩
  · rw [hsplit, f2]
    simp only [cadd, List.length_append, List.length_cons]
    omega
  · rw [hsplit, f2]
    simp only [cadd]
    omega
  · rw [hsplit]
    simp only [List.countP_append]
    have ht0count : (execTask env t0).1.countP (fun st => st.status = StepStatus.Failed) = 1 := by
      rw [List.countP_eq_length.mpr]
      · exact flen
      · intro st hst
        rw [fstatus st hst]
        simp
    omega
  · have hfoldGood : ∀ ts : List TaskRec,
        (∀ t ∈ ts, t.entry.is_original = false →
          ∃ s nm r, t.entry.style = some s ∧ s.name = some nm ∧
            env.process_image (rf t.entry.source_item.path) s.prompt_text s.strength
              = Except.ok r ∧ pyTruthyBytes r.data = true) →
        (∀ t ∈ ts, t.entry.is_original = false → ∀ s, t.entry.style = some s →
          pyTruthyBytes ((fenv.generate (rf t.entry.source_item.path)
            t.entry.source_item.name s.prompt_text s.strength).data) = true) →
        (funcFold fenv ts).2 = [] := by
      intro ts hok' hfok'
      apply funcFold_all_good fenv rf hfr hfw ts
      intro t ht h
      obtain ⟨s, nm, r, hs, _, _, _⟩ := hok' t ht h
      exact ⟨s, hs, hfok' t ht h s hs⟩
    have hpreF : (funcFold fenv pre).2 = [] :=
      hfoldGood pre hokPre (fun t ht h s hs => hfok t (List.mem_append_left _ ht) h s hs)
    have hpostF : (funcFold fenv post).2 = [] :=
      hfoldGood post hokPost (fun t ht h s hs => hfok t (List.mem_append_right _ ht) h s hs)
    have ht0F : funcTask fenv t0 = ([], [t0.entry.output_path]) :=
      funcTask_styled_fail fenv rf hfr t0 s0 ht0 hs0 hffail
    show (funcFold fenv (pre ++ t0 :: post)).2 = [t0.entry.output_path]
    have happ : funcFold fenv (pre ++ t0 :: post)
        = ((funcFold fenv pre).1 ++ (funcFold fenv (t0 :: post)).1,
           (funcFold fenv pre).2 ++ (funcFold fenv (t0 :: post)).2) := by
      unfold funcFold
      rw [List.foldl_append]
      exact funcFold_shift fenv (t0 :: post) _ _
    rw [happ, funcFold_cons, ht0F, hpreF, hpostF]
    simp

def c7imgA : FileItem := { name := "a.jpg", is_dir := false, size := some 1, path := "A" }

def c7imgB : FileItem := { name := "b.jpg", is_dir := false, size := some 1, path := "B" }

def c7imgC : FileItem := { name := "c.jpg", is_dir := false, size := some 1, path := "C" }

def c7style : Style := { name := some "Sketch", prompt_text := "p0", strength := 1/2, index := 0 }

def c7copy : TaskRec :=
  { entry := { source_item := c7imgA, style := none, output_path := "original/a.jpg",
               is_original := true },
    full_target_path := "out/original/a.jpg" }

def c7bad : TaskRec :=
  { entry := { source_item := c7imgB, style := some c7style, output_path := "sketch/b.jpg",
               is_original := false },
    full_target_path := "out/sketch/b.jpg" }

def c7good : TaskRec :=
  { entry := { source_item := c7imgC, style := some c7style, output_path := "sketch/c.jpg",
               is_original := false },
    full_target_path := "out/sketch/c.jpg" }

def c7env : ExecEnv :=
  { read_file := fun p => Except.ok p,
    write_file := fun _ _ => Except.ok (),
    process_image := fun d _ _ =>
      if d = "B" then Except.error "boom"
      else Except.ok { data := some "img", latency := 0, request_info := "rq",
                       response_info := "rs" } }

def c7fenv : FuncEnv :=
  { read_file := fun p => Except.ok p,
    write_file := fun _ _ => Except.ok (),
    generate := fun d _ _ _ =>
      if d = "B" then { data := none, request_info := "", response_info := "" }
      else { data := some "img", request_info := "", response_info := "" } }

def c7expected : List (String × ExpectedEntry) := []

/-- Witness for C7: three tasks — a copy, a styled task whose generation raises,
a styled task that succeeds — give three processed tasks, one failure, one
Failed record, and a completed serverless run failing only the middle task. -/
theorem single_failure_isolation_witness :
    ((runTasks c7env ([c7copy] ++ c7bad :: [c7good])).2.copy_count
        + (runTasks c7env ([c7copy] ++ c7bad :: [c7good])).2.success_count
        + (runTasks c7env ([c7copy] ++ c7bad :: [c7good])).2.fail_count
      = ([c7copy] ++ c7bad :: [c7good]).length) ∧
    (runTasks c7env ([c7copy] ++ c7bad :: [c7good])).2.fail_count = 1 ∧
    (runTasks c7env ([c7copy] ++ c7bad :: [c7good])).1.countP
        (fun st => st.status = StepStatus.Failed) = 1 ∧
    (funcRun c7fenv c7expected ([c7copy] ++ c7bad :: [c7good])).status = "completed" ∧
    (funcRun c7fenv c7expected ([c7copy] ++ c7bad :: [c7good])).failed
      = [c7bad.entry.output_path] :=
  single_failure_isolation c7env c7fenv c7expected [c7copy] [c7good] c7bad c7style "Sketch"
    (fun p => p)
    (fun p => rfl) (fun p d => rfl) (fun p => rfl) (fun p d => rfl)
    rfl rfl rfl
    (Or.inl ⟨"boom", rfl, rfl⟩)
    rfl
    (by
      intro t ht h
      rcases List.mem_cons.mp ht with rfl | ht'
      · simp [c7copy] at h
      · rcases List.mem_cons.mp ht' with rfl | h''
        · exact ⟨c7style, "Sketch",
            { data := some "img", latency := 0, request_info := "rq", response_info := "rs" },
            rfl, rfl, rfl, rfl⟩
        · cases h'')
    (by
      intro t ht h s hs
      rcases List.mem_cons.mp ht with rfl | ht'
      · simp [c7copy] at h
      · rcases List.mem_cons.mp ht' with rfl | h''
        · obtain rfl : c7style = s := by simpa [c7good] using hs
          rfl
        · cases h'')

/-- C8: the `image_strength` parameter sent to generation backend B equals
`1 - strength` clamped into `[0.01, 0.99]`, i.e. `max(0.01, min(0.99, 1 - strength))`,
and in particular always lies in that closed interval. -/
theorem stability_image_strength_clamp (strength : ℚ) :
    stabilityInfluence strength = specClamp (1 - strength) (1/100) (99/100) ∧
    1/100 ≤ stabilityInfluence strength ∧ stabilityInfluence strength ≤ 99/100 := by
  refine ⟨rfl, le_max_left _ _, ?_⟩
  have h : min (99/100 : ℚ) (1 - strength) ≤ 99/100 := min_le_left _ _
  have h2 : (1/100 : ℚ) ≤ 99/100 := by norm_num
  simpa [stabilityInfluence] using max_le h2 h

end StyleSync
